import Mathlib

/-!
Verification of the procore-docs-to-openapi transformation pipeline.

This file shallowly embeds the JavaScript source of the repository:
JSON values become the inductive type JsVal, JS objects become
association lists preserving insertion order, fallible code returns
Except, and the diagnostic warn channel (side effect only, never
affecting results) is elided.  Each embedded definition names the
source function it was translated from.
-/

/-- Model of a JSON-like JavaScript value tree.  JS objects are modelled
as association lists in insertion order (the source only builds objects
with string keys, no duplicates).  JS null and undefined leaves are both
modelled as JsVal.null where the distinction does not matter to the
code under study; numbers appearing in the documents are integers. -/
inductive JsVal where
  | null : JsVal
  | bool (b : Bool) : JsVal
  | num (n : Int) : JsVal
  | str (s : String) : JsVal
  | arr (elems : List JsVal) : JsVal
  | obj (fields : List (String × JsVal)) : JsVal
deriving Repr

namespace JsVal

mutual

/-- Model of Node isDeepStrictEqual restricted to the values the
pipeline builds: structural equality.  (Key-order insensitivity of the
real isDeepStrictEqual is not needed: the code under study always
builds objects with a deterministic key order.) -/
def beq : JsVal → JsVal → Bool
  | .null, .null => true
  | .bool a, .bool b => a == b
  | .num a, .num b => a == b
  | .str a, .str b => a == b
  | .arr a, .arr b => beqList a b
  | .obj a, .obj b => beqFields a b
  | _, _ => false

def beqList : List JsVal → List JsVal → Bool
  | [], [] => true
  | a :: as, b :: bs => beq a b && beqList as bs
  | _, _ => false

def beqFields : List (String × JsVal) → List (String × JsVal) → Bool
  | [], [] => true
  | a :: as, b :: bs => a.1 == b.1 && beq a.2 b.2 && beqFields as bs
  | _, _ => false

end

/-- Own-property lookup on a modelled JS object (first match, as JS
objects have unique keys). -/
def lookupField (fields : List (String × JsVal)) (k : String) : Option JsVal :=
  match fields with
  | [] => none
  | (k2, v) :: rest => if k2 = k then some v else lookupField rest k

/-- Property read on an arbitrary value: obj fields are looked up, any
other value has no modelled own string properties. -/
def getField (v : JsVal) (k : String) : Option JsVal :=
  match v with
  | .obj fields => lookupField fields k
  | _ => none

end JsVal

/-- Model of JS String.prototype.startsWith, character by character
(kernel-reducible, unlike String.startsWith). -/
def jsStartsWithAux : List Char → List Char → Bool
  | _, [] => true
  | [], _ :: _ => false
  | c :: cs, d :: ds => c == d && jsStartsWithAux cs ds

/-- Whether the string s starts with the string p. -/
def jsStartsWith (s p : String) : Bool := jsStartsWithAux s.data p.data

namespace MakeFilter

/-- From make-filter.js: values of support_level observed in Procore
docs, in order of increasing support. -/
def supportLevels : List String := ["internal", "alpha", "beta", "production"]

/-- Model of JS Array.prototype.indexOf on string arrays: index of the
first occurrence, or -1 when absent. -/
def jsIndexOf (l : List String) (s : String) : Int :=
  match l with
  | [] => -1
  | x :: rest =>
      if x = s then 0
      else
        let r := jsIndexOf rest s
        if r < 0 then -1 else r + 1

/-- The endpoint fields read by the filter returned from
makeEndpointFilter (make-filter.js lines 29-50). -/
structure Endpoint where
  support_level : String
  beta_programs : List String
  internal_only : Bool

/-- From make-filter.js lines 29-50: the closure returned by
makeEndpointFilter, with minIndex already computed.  The warn call for
an unrecognized support_level is side-effect only and elided. -/
def endpointFilter (minIndex : Int) (includeBetaPrograms : List String)
    (e : Endpoint) : Bool :=
  if e.internal_only && decide (minIndex > 0) then false
  else if e.beta_programs.any (fun bp => includeBetaPrograms.contains bp) then true
  else decide (jsIndexOf supportLevels e.support_level ≥ minIndex)

/-- From make-filter.js lines 16-51: makeEndpointFilter.  The RangeError
for an unrecognized minSupportLevel becomes Except.error; the Set
conversion of includeBetaPrograms only affects membership testing and
is modelled by list membership. -/
def makeEndpointFilter (minSupportLevel : String)
    (includeBetaPrograms : List String) : Except String (Endpoint → Bool) :=
  if jsIndexOf supportLevels minSupportLevel < 0 then
    .error "Unrecognized minSupportLevel"
  else .ok (endpointFilter (jsIndexOf supportLevels minSupportLevel) includeBetaPrograms)

end MakeFilter

namespace Combine

/-- A tag entry of an OpenAPI document: the name read by combine.js
line 50 paired with the whole tag value compared by deepStrictEqual at
line 53. -/
structure Tag where
  name : String
  value : JsVal

/-- An OpenAPI document as consumed by combineOpenapi (combine.js):
the three recognized top-level properties, plus the list of any other
top-level property names (their values are never read, only their
presence is checked at combine.js lines 43-46).  paths is an
association list in insertion order with the unique-key invariant of
JS objects. -/
structure OpenapiDoc where
  openapi : String
  tags : Option (List Tag)
  paths : List (String × JsVal)
  extraKeys : List String

/-- Result document of combineOpenapi (combine.js lines 73-77). -/
structure CombinedDoc where
  openapi : String
  tags : List Tag
  paths : List (String × JsVal)

/-- Insert-if-absent into the tagsByName map (combine.js lines 48-58).
The Map preserves insertion order, modelled as an association list; a
tag whose name is already present must be deeply equal to the earlier
tag or the assert throws. -/
def addTags (tagsByName : List Tag) : List Tag → Except String (List Tag)
  | [] => .ok tagsByName
  | tag :: rest =>
      match tagsByName.find? (fun t => t.name = tag.name) with
      | some oldTag =>
          if JsVal.beq tag.value oldTag.value then addTags tagsByName rest
          else .error "Tag must match"
      | none => addTags (tagsByName ++ [tag]) rest

/-- Add one paths object into combinedPaths (combine.js lines 60-66),
erroring on a duplicate path string. -/
def addPaths (combinedPaths : List (String × JsVal)) :
    List (String × JsVal) → Except String (List (String × JsVal))
  | [] => .ok combinedPaths
  | (pathStr, pathObj) :: rest =>
      if combinedPaths.any (fun p => p.1 = pathStr) then .error "Duplicate path"
      else addPaths (combinedPaths ++ [(pathStr, pathObj)]) rest

/-- State of the fold in combineOpenapi. -/
structure CombineState where
  combinedPaths : List (String × JsVal)
  tagsByName : List Tag
  firstVer : Option String

/-- One iteration of the loop of combineOpenapi (combine.js lines
23-67), in source order: OpenAPI version prefix check, first-version
comparison, unrecognized-property check, tag merging, path merging. -/
def combineStep (st : CombineState) (doc : OpenapiDoc) :
    Except String CombineState :=
  if ¬ jsStartsWith doc.openapi "3." then
    .error "Unsupported OpenAPI version"
  else if st.firstVer.any (fun v => doc.openapi != v) then
    .error "Can not combine different OpenAPI versions"
  else if doc.extraKeys ≠ [] then
    .error "Unsupported OpenAPI properties"
  else
    match (match doc.tags with
           | some tags => addTags st.tagsByName tags
           | none => .ok st.tagsByName) with
    | .error e => .error e
    | .ok tagsByName =>
        match addPaths st.combinedPaths doc.paths with
        | .error e => .error e
        | .ok combinedPaths =>
            .ok ⟨combinedPaths, tagsByName, some (st.firstVer.getD doc.openapi)⟩

/-- From combine.js lines 19-78: combineOpenapi.  Returns none (JS
undefined) when no document set firstVer, i.e. the input was empty. -/
def combineOpenapi (openapiDocs : List OpenapiDoc) :
    Except String (Option CombinedDoc) :=
  match openapiDocs.foldlM combineStep ⟨[], [], none⟩ with
  | .error e => .error e
  | .ok st =>
      match st.firstVer with
      | none => .ok none
      | some v => .ok (some ⟨v, st.tagsByName, st.combinedPaths⟩)

/-- One insert-if-absent step of the tagsByName map viewed as a fold:
a tag whose name is already present is dropped, otherwise appended. -/
def insTag (acc : List Tag) (t : Tag) : List Tag :=
  if acc.any (fun t0 => t0.name = t.name) then acc else acc ++ [t]

/-- Tags of a document, defaulting to the empty list when the tags
property is absent. -/
def tagsOfDoc (d : OpenapiDoc) : List Tag := d.tags.getD []

/-- Specification-side description of the combined tag list (spec 4.5:
deduplicated tags in first-seen order): keep each tag whose name did
not occur earlier. -/
def dedupFirstByName : List Tag → List Tag
  | [] => []
  | tag :: rest =>
      tag :: (dedupFirstByName (rest.filter (fun t => t.name ≠ tag.name)))
termination_by l => l.length
decreasing_by
  have := List.length_filter_le (fun t => decide (t.name ≠ tag.name)) rest
  simp at this ⊢
  omega

end Combine


namespace DocBugs

/-- Canonical array-index parse: a nonempty digit string without a
leading zero (except "0" itself), as used for JS array own-property
keys. -/
def parseIndex (s : String) : Option Nat :=
  match s.data with
  | [] => none
  | c :: cs =>
      if (c :: cs).all (fun d => d.isDigit) ∧ (c ≠ '0' ∨ cs = []) then
        some ((c :: cs).foldl (fun n d => n * 10 + (d.toNat - 48)) 0)
      else none

/-- Model of hasOwnProperty.call(obj, propName) in applyToPath
(doc-bugs-transformer.js line 15).  On null (JS null or undefined) the
call itself throws a TypeError; an object owns its keys; an array owns
its indices (its length property, and the index and length properties
of boxed strings, are not modelled: the fixed paths of the transformer
never address them); other primitives own none of the modelled
properties. -/
def hasOwnProp : JsVal → String → Except String Bool
  | .null, _ => .error "TypeError: Cannot convert undefined or null to object"
  | .obj fields, p => .ok (fields.any (fun f => f.1 == p))
  | .arr elems, p =>
      .ok (match parseIndex p with
           | some i => decide (i < elems.length)
           | none => false)
  | _, _ => .ok false

/-- Property read obj[propName] on the modelled values (absent gives
JS undefined, modelled as null). -/
def getProp : JsVal → String → JsVal
  | .obj fields, p => (JsVal.lookupField fields p).getD .null
  | .arr elems, p =>
      (match parseIndex p with
       | some i => elems.getD i .null
       | none => .null)
  | _, _ => .null

/-- Replace the first binding of key p (appending when absent, as JS
property assignment does). -/
def setFields (fields : List (String × JsVal)) (p : String) (x : JsVal) :
    List (String × JsVal) :=
  match fields with
  | [] => [(p, x)]
  | (k, v) :: rest => if k = p then (k, x) :: rest else (k, v) :: setFields rest p x

/-- Property write newObj[propName] = x on the copied node
(doc-bugs-transformer.js lines 20-21). -/
def setProp : JsVal → String → JsVal → JsVal
  | .obj fields, p, x => .obj (setFields fields p x)
  | .arr elems, p, x =>
      (match parseIndex p with
       | some i => .arr (elems.set i x)
       | none => .arr elems)
  | v, _, _ => v

/-- From doc-bugs-transformer.js lines 9-31: applyToPath.  The index
argument i is modelled by recursing on the remaining path segments;
the visit wrapper only maintains the diagnostic path and is elided. -/
def applyToPath (transform : JsVal → JsVal) (obj : JsVal) :
    List String → Except String JsVal
  | [] => .ok (transform obj)
  | p :: rest =>
      match hasOwnProp obj p with
      | .error e => .error e
      | .ok false => .ok obj
      | .ok true =>
          match applyToPath transform (getProp obj p) rest with
          | .error e => .error e
          | .ok res => .ok (setProp obj p res)

/-- The walk of applyToPath completes: every segment is an own property
of the node it is read from. -/
def pathAllPresent : JsVal → List String → Bool
  | _, [] => true
  | v, p :: rest =>
      match hasOwnProp v p with
      | .ok true => pathAllPresent (getProp v p) rest
      | _ => false

/-- The walk of applyToPath stops benignly: a segment is missing on a
node whose own properties could be tested (no null was reached). -/
def pathMissesBenignly : JsVal → List String → Bool
  | _, [] => false
  | v, p :: rest =>
      match hasOwnProp v p with
      | .ok true => pathMissesBenignly (getProp v p) rest
      | .ok false => true
      | .error _ => false

/-- The walk of applyToPath reaches a null (JS null or undefined) node
while segments remain: the own-property test throws. -/
def pathHitsNull : JsVal → List String → Bool
  | _, [] => false
  | v, p :: rest =>
      match hasOwnProp v p with
      | .ok true => pathHitsNull (getProp v p) rest
      | .ok false => false
      | .error _ => true

/-- Node of a tree at a property path (specification side). -/
def getAtPath (v : JsVal) : List String → JsVal
  | [] => v
  | p :: rest => getAtPath (getProp v p) rest

/-- Tree with the node at a property path replaced (specification
side): ancestors along the path are rebuilt, everything else kept. -/
def setAtPath (v : JsVal) : List String → JsVal → JsVal
  | [], x => x
  | p :: rest, x => setProp v p (setAtPath (getProp v p) rest x)

end DocBugs

/-- Replace the value bound to the first occurrence of a key. -/
def setAssoc {α : Type} : List (String × α) → String → α → List (String × α)
  | [], _, _ => []
  | (k, w) :: rest, key, x =>
      if k = key then (k, x) :: rest else (k, w) :: setAssoc rest key x


namespace Endpoints

/-- The endpoint fields that determine where transformEndpoints records
an operation (index.js lines 538-662): combined path is base_path +
path and the method is the verb.  The remaining endpoint fields only
shape the Operation object itself and are elided; the recorded
operation is represented by the endpoint it was built from. -/
structure Endpoint where
  base_path : String
  path : String
  verb : String
deriving DecidableEq

/-- Path and method of the triple returned by transformEndpoint
(index.js lines 635-661): path: basePath + path, method: verb. -/
def transformEndpoint (e : Endpoint) : String × String :=
  (e.base_path ++ e.path, e.verb)

/-- Whether the optional endpointFilter option admits an endpoint
(index.js lines 672-673): a missing filter admits everything. -/
def passes (filt : Option (Endpoint → Bool)) (e : Endpoint) : Bool :=
  match filt with
  | none => true
  | some f => f e

/-- Loop of transformEndpoints (index.js lines 669-691) over the
remaining endpoints, carrying the paths accumulator: a new path gets a
fresh single-method path item, a new method is appended to an existing
path item, and a repeated (path, method) combination is a hard error. -/
def transformEndpointsGo (filt : Option (Endpoint → Bool)) :
    List (String × List (String × Endpoint)) → List Endpoint →
      Except String (List (String × List (String × Endpoint)))
  | paths, [] => .ok paths
  | paths, e :: rest =>
      if passes filt e then
        match paths.find? (fun q => q.1 = (transformEndpoint e).1) with
        | none =>
            transformEndpointsGo filt
              (paths ++ [((transformEndpoint e).1, [((transformEndpoint e).2, e)])]) rest
        | some item =>
            match item.2.find? (fun q => q.1 = (transformEndpoint e).2) with
            | none =>
                transformEndpointsGo filt
                  (setAssoc paths (transformEndpoint e).1
                    (item.2 ++ [((transformEndpoint e).2, e)])) rest
            | some _ => .error "Method appears multiple times"
      else transformEndpointsGo filt paths rest

/-- From index.js lines 669-691: transformEndpoints. -/
def transformEndpoints (filt : Option (Endpoint → Bool)) (endpoints : List Endpoint) :
    Except String (List (String × List (String × Endpoint))) :=
  transformEndpointsGo filt [] endpoints

/-- Operation recorded for a path and method in the result. -/
def lookup2 (m : List (String × List (String × Endpoint))) (p v : String) :
    Option Endpoint :=
  match m.find? (fun q => q.1 = p) with
  | none => none
  | some item => (item.2.find? (fun q => q.1 = v)).map Prod.snd

end Endpoints


namespace ErrResp

open JsVal

/-- From error-response-transformer.js lines 11-30: errorSchema. -/
def errorSchema : JsVal := .obj [
  ("type", .str "object"),
  ("properties", .obj [
    ("code", .obj [("type", .str "integer"), ("format", .str "int32")]),
    ("message", .obj [("type", .str "string")]),
    ("fields", .obj [("type", .str "string")]),
    ("reason", .obj [
      ("description", .str "A human-readable code providing additional detail on the cause of the error."),
      ("type", .str "string")])])]

/-- From error-response-transformer.js lines 31-35: errorContent. -/
def errorContent : JsVal := .obj [
  ("application/json", .obj [("schema", errorSchema)])]

/-- From error-response-transformer.js lines 36-44: genericObjectResponse. -/
def genericObjectResponse : JsVal := .obj [
  ("content", .obj [
    ("application/json", .obj [("schema", .obj [("type", .str "object")])])])]

/-- From error-response-transformer.js lines 48-138: componentsResponses
(NotAcceptable is commented out in the source and therefore absent). -/
def componentsResponses : List (String × JsVal) := [
  ("BadRequest", .obj [
    ("description", .str "**400 Bad Request** - The request was invalid or could not be understood by the server. Resubmitting the request will likely result in the same error."),
    ("content", errorContent)]),
  ("Unauthorized", .obj [
    ("description", .str "**401 Unauthorized** - Your API key is missing."),
    ("content", errorContent)]),
  ("Forbidden", .obj [
    ("description", .str "**403 Forbidden** - The application is attempting to perform an action it does not have privileges to access. Verify your API key belongs to an enabled user with the required permissions."),
    ("content", errorContent)]),
  ("NotFound", .obj [
    ("description", .str "**404 Not Found** - The resource was not found with the given identifier. Either the URL given is not a valid API, or the ID of the object specified in the request is invalid."),
    ("content", errorContent)]),
  ("Conflict", .obj [
    ("description", .str "**409 Conflict** - The request attempts to create a duplicate. For employees, duplicate emails are not allowed. For lists, duplicate values are not allowed."),
    ("content", errorContent)]),
  ("UnprocessableEntity", .obj [
    ("description", .str "**422 Unprocessable Entity** - The structure, syntax, etc of the API call was correct, but due to business logic the server is unable to process the request."),
    ("content", errorContent)]),
  ("LimitExceeded", .obj [
    ("description", .str "**429 Limit Exceeded** - API rate limit exceeded.  See https://developers.procore.com/documentation/rate-limiting"),
    ("headers", .obj [
      ("X-Rate-Limit-Limit", .obj [
        ("description", .str "The total number of requests per 60 minute window."),
        ("required", .bool true),
        ("schema", .obj [("type", .str "integer"), ("exclusiveMinimum", .num 0)]),
        ("example", .num 3600)]),
      ("X-Rate-Limit-Remaining", .obj [
        ("description", .str "The number of requests you are allowed to make in the current 60 minute window."),
        ("required", .bool true),
        ("schema", .obj [("type", .str "integer"), ("minimum", .num 0)]),
        ("example", .num 3599)]),
      ("X-Rate-Limit-Reset", .obj [
        ("description", .str "The Unix timestamp for when the next window begins."),
        ("required", .bool true),
        ("schema", .obj [("type", .str "integer"), ("exclusiveMinimum", .num 0)]),
        ("example", .num 1466182244)])]),
    ("content", errorContent)]),
  ("InternalServerError", .obj [
    ("description", .str "**500 Internal Server Error** - The server encountered an error while processing your request and failed."),
    ("content", errorContent)]),
  ("GatewayError", .obj [
    ("description", .str "**502 Gateway Error** - The load balancer or web server had trouble connecting to the ACME app. Please try the request again."),
    ("content", errorContent)]),
  ("ServiceUnavailable", .obj [
    ("description", .str "**503 Service Unavailable** - The service is temporarily unavailable. Please try the request again."),
    ("content", errorContent)])]

/-- From error-response-transformer.js lines 140-152: codeToResponseNames. -/
def codeToResponseNames : List (String × List String) := [
  ("400", ["BadRequest"]),
  ("401", ["Unauthorized"]),
  ("403", ["Forbidden"]),
  ("404", ["NotFound"]),
  ("406", ["NotAcceptable"]),
  ("409", ["Conflict"]),
  ("422", ["UnprocessableEntity"]),
  ("429", ["LimitExceeded"]),
  ("500", ["InternalServerError"]),
  ("502", ["GatewayError"]),
  ("503", ["ServiceUnavailable"])]

/-- From error-response-transformer.js lines 159-164: ubiquitousResponses. -/
def ubiquitousResponses : List (String × JsVal) := [
  ("429", .obj [("$ref", .str "#/components/responses/LimitExceeded")]),
  ("500", .obj [("$ref", .str "#/components/responses/InternalServerError")]),
  ("502", .obj [("$ref", .str "#/components/responses/GatewayError")]),
  ("503", .obj [("$ref", .str "#/components/responses/ServiceUnavailable")])]

/-- Copy of a response without its top-level description property
(error-response-transformer.js lines 167-177). -/
def removeDescription : JsVal → JsVal
  | .obj fields => .obj (fields.filter (fun f => f.1 ≠ "description"))
  | v => v

/-- From error-response-transformer.js lines 166-180: isResponseEqual,
deep equality ignoring the top-level descriptions. -/
def isResponseEqual (response1 response2 : JsVal) : Bool :=
  JsVal.beq (removeDescription response1) (removeDescription response2)

/-- Substring containment, modelling JS String.prototype.includes. -/
def strIncludesAux : List Char → List Char → Bool
  | hay, needle =>
      jsStartsWithAux hay needle ||
        match hay with
        | [] => false
        | _ :: rest => strIncludesAux rest needle

/-- Whether hay contains needle as a substring. -/
def strIncludes (hay needle : String) : Bool := strIncludesAux hay.data needle.data

/-- The description property of a response when it is a string (the
pipeline only produces string descriptions). -/
def responseDescription (response : JsVal) : Option String :=
  match response.getField "description" with
  | some (.str s) => some s
  | _ => none

/-- Description of a catalogued response (always a string in the data). -/
def namedDescription (named : JsVal) : String :=
  match responseDescription named with
  | some s => s
  | none => ""

/-- The $ref response replacing a matched response
(error-response-transformer.js lines 227-234): the original description
is kept on the $ref when present and not subsumed by the catalogued
description. -/
def mkRef (name : String) (named response : JsVal) : JsVal :=
  let base := [("$ref", JsVal.str ("#/components/responses/" ++ name))]
  match responseDescription response with
  | some d =>
      if d ≠ "" ∧ ¬ strIncludes (namedDescription named) d then
        .obj (base ++ [("description", .str d)])
      else .obj base
  | none => .obj base

/-- Inner loop of transformResponses over the catalogued response names
for one status code (error-response-transformer.js lines 222-237): the
first name whose catalogued response matches the declared response
ignoring descriptions, or whose first slot matches the generic object
response, yields a $ref; a name absent from componentsResponses (only
NotAcceptable) makes the JS code throw a TypeError inside
isResponseEqual. -/
def findRef (response : JsVal) : List String → Nat → Except String (Option JsVal)
  | [], _ => .ok none
  | name :: rest, i =>
      match componentsResponses.find? (fun q => q.1 = name) with
      | none => .error "TypeError: catalogued response is undefined"
      | some named =>
          if isResponseEqual response named.2 ||
              (i == 0 && isResponseEqual response genericObjectResponse) then
            .ok (some (mkRef name named.2 response))
          else findRef response rest (i + 1)

/-- The object spread { ...a, ...b }: entries of a whose keys are not
in b, then the entries of b.  (JS orders integer-like keys numerically;
only lookups matter here and they agree.) -/
def spreadMerge (a b : List (String × JsVal)) : List (String × JsVal) :=
  a.filter (fun p => ¬ b.any (fun q => q.1 = p.1)) ++ b

/-- Loop of transformResponses (error-response-transformer.js lines
216-248) over the declared responses, replacing matched ones in the
merged map by their $ref. -/
def transformResponsesGo (acc : List (String × JsVal)) :
    List (String × JsVal) → Except String (List (String × JsVal))
  | [] => .ok acc
  | (code, response) :: rest =>
      match codeToResponseNames.find? (fun q => q.1 = code) with
      | none => transformResponsesGo acc rest
      | some names =>
          match findRef response names.2 0 with
          | .error e => .error e
          | .ok none => transformResponsesGo acc rest
          | .ok (some ref) => transformResponsesGo (setAssoc acc code ref) rest

/-- From error-response-transformer.js lines 211-250:
ErrorResponseTransformer.transformResponses. -/
def transformResponses (responses : List (String × JsVal)) :
    Except String (List (String × JsVal)) :=
  transformResponsesGo (spreadMerge ubiquitousResponses responses) responses

/-- Own-property lookup in a responses map. -/
def lookupAssoc (m : List (String × JsVal)) (k : String) : Option JsVal :=
  (m.find? (fun q => q.1 = k)).map Prod.snd

end ErrResp

namespace ErrResp

end ErrResp


namespace To30

/-- From part_008 (openapi31to30.js) lines 24-32: allPrimitiveTypes.
The argument is the value of a schema type keyword (absent modelled as
none); includes is value equality, via the deep-equality model beq. -/
def allPrimitiveTypes : Option JsVal → Bool
  | some (.arr elems) =>
      decide (elems.length ≥ 3) &&
        ["boolean", "number", "string"].all
          (fun t => elems.any (fun v => JsVal.beq v (.str t)))
  | _ => false

/-- Specification-side predicate, following the words of spec 4.6: the
type constraint in array form enumerates all the primitive scalar
types, i.e. the JSON Schema types other than array and object:
boolean, number and string. -/
def typeListsAllPrimitiveScalarTypes (t : Option JsVal) : Prop :=
  ∃ elems, t = some (.arr elems) ∧ JsVal.str "boolean" ∈ elems ∧
    JsVal.str "number" ∈ elems ∧ JsVal.str "string" ∈ elems

/-- Per-schema action of RemoveTypeIfTransformer from
@kevinoid/openapi-transformers/remove-type-if.js (an external
dependency, not part of this repository), modelled from its documented
contract: delete the type keyword when the configured predicate holds
of its value. -/
def removeTypeIf (pred : Option JsVal → Bool) (schema : JsVal) : JsVal :=
  match schema with
  | .obj fields =>
      if pred (JsVal.lookupField fields "type") then
        .obj (fields.filter (fun f => f.1 ≠ "type"))
      else .obj fields
  | v => v

/-- The spread { ...openApi, openapi: "3.0.3" } of part_008 lines
65-68: replace (or append) the openapi property.  A non-object spread
target contributes no string-keyed properties of interest. -/
def setField (v : JsVal) (k : String) (x : JsVal) : JsVal :=
  match v with
  | .obj fields =>
      if fields.any (fun f => f.1 = k) then .obj (setAssoc fields k x)
      else .obj (fields ++ [(k, x)])
  | _ => .obj [(k, x)]

/-- From part_008 lines 48-69:
ProcoreOpenApi31To30Transformer.transformOpenApi, parameterized by the
transformer pipeline (in the source: RemoveTypeIfTransformer with the
allPrimitiveTypes predicate, then the external OpenApi31To30Transformer).
A non-object document is returned unchanged with a warning; the
version check at lines 56-59 only warns and never changes the result. -/
def transformOpenApi (transformers : List (JsVal → JsVal)) (openApi : JsVal) : JsVal :=
  match openApi with
  | .obj fields =>
      setField (transformers.foldl (fun acc t => t acc) (.obj fields))
        "openapi" (.str "3.0.3")
  | v => v

end To30

namespace To30

end To30


namespace FmtDesc

/-- JS regex word character: [A-Za-z0-9_]. -/
def isWordChar (c : Char) : Bool :=
  ('a' ≤ c && c ≤ 'z') || ('A' ≤ c && c ≤ 'Z') || ('0' ≤ c && c ≤ '9') || c == '_'

/-- Case-insensitive character comparison (ASCII case folding, the only
case the needles use). -/
def charEqCI (a b : Char) : Bool :=
  (if 65 ≤ a.toNat ∧ a.toNat ≤ 90 then a.toNat + 32 else a.toNat) ==
    (if 65 ≤ b.toNat ∧ b.toNat ≤ 90 then b.toNat + 32 else b.toNat)

/-- Case-insensitive match of needle at the head of hay, returning the
rest of hay after the match. -/
def matchesAt : List Char → List Char → Option (List Char)
  | [], rest => some rest
  | _ :: _, [] => none
  | n :: ns, h :: hs => if charEqCI n h then matchesAt ns hs else none

/-- Left word boundary: start of string or previous character not a
word character (every needle begins with a word character). -/
def leftBoundary : Option Char → Bool
  | none => true
  | some c => ¬ isWordChar c

/-- Right word boundary after a match (every needle ends with a word
character): end of string or next character not a word character. -/
def rightBoundary : List Char → Bool
  | [] => true
  | c :: _ => ¬ isWordChar c

/-- Scan hay for a case-insensitive occurrence of needle with a left
word boundary, and a right word boundary when rightB is set: the model
of the tests /\bneedle\b/i and /\bneedle/i. -/
def scanWord (needle : List Char) (rightB : Bool) : Option Char → List Char → Bool
  | prev, hay =>
      (leftBoundary prev &&
        match matchesAt needle hay with
        | some rest => !rightB || rightBoundary rest
        | none => false) ||
      match hay with
      | [] => false
      | c :: cs => scanWord needle rightB (some c) cs

/-- The test /\bneedle\b/i on a string. -/
def testWordCI (needle s : String) : Bool := scanWord needle.data true none s.data

/-- The test /\bneedle/i on a string (no right boundary, used for the
datetime range pattern). -/
def testWordLeftCI (needle s : String) : Bool := scanWord needle.data false none s.data

/-- Case-insensitive whole-string equality, modelling /^needle$/i. -/
def strEqCI (a b : String) : Bool :=
  match matchesAt a.data b.data with
  | some [] => true
  | _ => false

/-- Whether the undefined-or-string name fully matches the pattern,
case-insensitively (an absent name never matches: the JS regexes test
the string "undefined", which none of the name patterns match). -/
def nameIsCI (name : Option String) (pat : String) : Bool :=
  match name with
  | none => false
  | some s => strEqCI pat s

/-- From format-from-description-transformer.js lines 29-46: the format
inferred from the property name and description, first match wins; the
datetime range pattern matches without assigning a format. -/
def inferFormat (name : Option String) (description : String) : Option String :=
  if testWordCI "YYYY-MM-DD" description then some "date"
  else if testWordLeftCI "datetime range" description then none
  else if testWordCI "datetime" description then some "date-time"
  else if testWordCI "UUID" description then some "uuid"
  else if nameIsCI name "URI" || nameIsCI name "URL" ||
      testWordCI "URI" description || testWordCI "URL" description then some "uri"
  else if nameIsCI name "email" || testWordCI "email" description then some "email"
  else if testWordCI "money" description || testWordCI "price" description ||
      testWordCI "cost" description then some "decimal"
  else none

/-- The description || '' of a schema (the pipeline only produces
string descriptions; a non-string value is treated as empty). -/
def descriptionOf (fields : List (String × JsVal)) : String :=
  match JsVal.lookupField fields "description" with
  | some (.str s) => s
  | _ => ""

/-- Whether the type property is the string value string
(schema.type === 'string' at line 16). -/
def isStringType (fields : List (String × JsVal)) : Bool :=
  match JsVal.lookupField fields "type" with
  | some (.str s) => s == "string"
  | _ => false

/-- From format-from-description-transformer.js lines 15-55: the
format-inference step applied after the base traversal: a non-object,
a non-string-typed schema, or a schema that already has a format is
returned unchanged; otherwise the inferred format (if any) is added as
a new format property. -/
def fdsFormat (name : Option String) (v : JsVal) : JsVal :=
  match v with
  | .obj fields =>
      if isStringType fields && (JsVal.lookupField fields "format").isNone then
        match inferFormat name (descriptionOf fields) with
        | some fmt => .obj (fields ++ [("format", .str fmt)])
        | none => .obj fields
      else .obj fields
  | x => x

mutual

/-- FormatFromDescriptionTransformer.transformSchema
(format-from-description-transformer.js lines 12-56): the base-class
structural recursion (child schemas under the items and properties
keywords stand for the child-schema positions the base transformer
visits; property children receive their property name as context, as
the transformPath computation at lines 21-24 yields) followed by the
format-inference step. -/
def fdsTransformSchema (name : Option String) (v : JsVal) : JsVal :=
  match v with
  | .obj fields => fdsFormat name (.obj (fdsBaseFields fields))
  | x => x

/-- Child-schema recursion of the base transformSchema over the fields
of a schema object. -/
def fdsBaseFields : List (String × JsVal) → List (String × JsVal)
  | [] => []
  | (k, v) :: rest =>
      (k, if k = "items" then fdsTransformSchema none v
          else if k = "properties" then fdsProperties v
          else v) :: fdsBaseFields rest

/-- Base transformSchemaProperties: each property value is visited as a
schema with its property name as context; a non-object properties
value is returned unchanged with a warning. -/
def fdsProperties (v : JsVal) : JsVal :=
  match v with
  | .obj props => .obj (fdsPropertiesList props)
  | x => x

def fdsPropertiesList : List (String × JsVal) → List (String × JsVal)
  | [] => []
  | (k, v) :: rest => (k, fdsTransformSchema (some k) v) :: fdsPropertiesList rest

end

end FmtDesc

namespace FmtDesc

end FmtDesc


-- ===================================================================
namespace BodyParams

/-- A mutable schema object of transformBodyParams, as a heap node:
the fields the hierarchy logic of part_010 (index.js) lines 354-505
reads and writes.  Child schemas are heap ids (JS object references).
The descriptive fields produced by transformParam and tuneSchema
(description, enum, format, minimum, maximum, deprecated) never
influence the hierarchy logic and are elided. -/
structure SchemaNode where
  stype : Option String := none
  items : Option Nat := none
  properties : Option (List (String × Nat)) := none
  patternProperties : Option (List (String × Nat)) := none
  required : Option (List String) := none
deriving Repr, DecidableEq

/-- The body_param fields read by the hierarchy logic: name (JS null,
undefined and the empty string are all falsy for the name tests),
indentation (a JS number, modelled as an integer), required, and type.
description, enum and direct_child_of_object only feed warnings or the
elided descriptive schema fields. -/
structure BodyParam where
  name : Option String := none
  indentation : Int
  required : Bool := false
  ptype : Option String := none

/-- State of the loop: the heap of allocated schema objects (ids are
list indices, allocation appends) and the schemaForDepth stack of ids. -/
structure BPState where
  heap : List SchemaNode
  schemaForDepth : List Nat
deriving Repr

/-- schemaForDepth starts holding the root object schema (line 358). -/
def initState : BPState := ⟨[({ stype := some "object" } : SchemaNode)], [0]⟩

/-- JS falsiness of the name value: null/undefined (none) and the empty
string. -/
def isFalsyName : Option String → Bool
  | none => true
  | some s => s == ""

/-- escape-string-regexp: every regex special character is backslash
escaped and the dash becomes a hex escape. -/
def escapeRegexpChar (c : Char) : List Char :=
  if c ∈ ['|', '\\', '{', '}', '(', ')', '[', ']', '^', '$', '+', '*', '?', '.'] then
    ['\\', c]
  else if c = '-' then ['\\', 'x', '2', 'd']
  else [c]

def escapeStringRegexp (l : List Char) : List Char :=
  (l.map escapeRegexpChar).flatten

/-- The name split at part_010 line 444 on the variable-reference
group regex (percent, open brace, one or more non-close-brace
characters, close brace, captured): alternating literal and variable
parts.  The first accumulator is the reversed literal text; a some
second accumulator means the scan is inside a candidate group opened by
percent, open brace, holding the reversed inner text.  A group closing
on an empty inner text is no match and its three characters are
literal; reaching the end inside a candidate leaves it literal. -/
def splitVarGo (litAcc : List Char) :
    Option (List Char) → List Char → List String
  | none, [] => [String.mk litAcc.reverse]
  | none, '%' :: '{' :: rest => splitVarGo litAcc (some []) rest
  | none, c :: rest => splitVarGo (c :: litAcc) none rest
  | some innerAcc, [] =>
      [String.mk (litAcc.reverse ++ '%' :: '{' :: innerAcc.reverse)]
  | some [], '}' :: rest => splitVarGo ('}' :: '{' :: '%' :: litAcc) none rest
  | some (i :: innerAcc), '}' :: rest =>
      String.mk litAcc.reverse ::
        String.mk ('%' :: '{' :: ((i :: innerAcc).reverse ++ ['}'])) ::
          splitVarGo [] none rest
  | some innerAcc, c :: rest => splitVarGo litAcc (some (c :: innerAcc)) rest

/-- variableParts of part_010 line 444: split, then drop empty parts. -/
def nameParts (s : String) : List String :=
  (splitVarGo [] none s.data).filter (fun p => p ≠ "")

/-- Whether a part starts with the two characters percent, open brace
(the startsWith tests of lines 445 and 464). -/
def startsVar (s : String) : Bool :=
  match s.data with
  | '%' :: '{' :: _ => true
  | _ => false

/-- endsWith of line 465: the part ends in underscore, i, d, close
brace. -/
def endsIdBrace (s : String) : Bool :=
  match s.data.reverse with
  | '}' :: 'd' :: 'i' :: '_' :: _ => true
  | _ => false

/-- Line 445: the name has no variable reference: a single part that
does not start a variable group. -/
def isPlainName (s : String) : Bool :=
  match nameParts s with
  | [p] => !startsVar p
  | _ => false

/-- The anchored pattern built from the parts at lines 462-474:
a variable part ending in _id matches digits, any other variable part
matches anything, and literal parts are regex-escaped. -/
def buildPattern (parts : List String) : String :=
  (parts.foldl
    (fun acc p =>
      acc ++ (if startsVar p then (if endsIdBrace p then "([0-9]+)" else "(.*)")
              else String.mk (escapeStringRegexp p.data)))
    "^") ++ "$"

end BodyParams

namespace BodyParams

/-- Lines 388-397: the tolerated one-level indentation gap.  When the
param's depth skips exactly one level past the recorded depths and the
schema at the grandparent depth has type array with no items yet, an
implicit array wrapper schema is synthesized as its items and recorded
as the missing parent depth; otherwise the state is unchanged. -/
def gapFixState (st : BPState) (depth : Nat) : BPState :=
  if 2 < depth ∧ depth - 1 = st.schemaForDepth.length then
    match st.schemaForDepth[depth - 2]? with
    | some gid =>
        match st.heap[gid]? with
        | some gnode =>
            if gnode.stype = some "array" ∧ gnode.items = none then
              { heap := (st.heap ++ [({ stype := some "array" } : SchemaNode)]).set gid
                          { gnode with items := some st.heap.length },
                schemaForDepth := st.schemaForDepth ++ [st.heap.length] }
            else st
        | none => st
    | none => st
  else st

/-- Lines 419-436: resolve the object schema receiving the property.
An object parent is itself the receiver; an array parent contributes
its items schema, created as a fresh object schema when absent and
rejected when present but not of type object; any other parent type is
an error. -/
def resolveParentObject (heap : List SchemaNode) (pid : Nat)
    (parent : SchemaNode) : Except String (List SchemaNode × Nat) :=
  if parent.stype = some "object" then .ok (heap, pid)
  else if parent.stype = some "array" then
    match parent.items with
    | none =>
        .ok ((heap ++ [({ stype := some "object" } : SchemaNode)]).set pid
               { parent with items := some heap.length }, heap.length)
    | some iid =>
        match heap[iid]? with
        | none => .error "dangling schema id"
        | some inode =>
            if inode.stype = some "object" then .ok (heap, iid)
            else .error "property for array of non-object items"
  else .error "param is child of non-object/array type"

/-- Lines 491-498: push the param name onto the required list of the
receiving object schema, creating the list when absent (an existing
empty array is truthy in JS and is pushed onto, which coincides with
extending the empty default). -/
def requiredPush (heap : List SchemaNode) (poid : Nat) (nm : String) :
    List SchemaNode :=
  match heap[poid]? with
  | none => heap
  | some po => heap.set poid { po with required := some (po.required.getD [] ++ [nm]) }

/-- Lines 444-498: add the new schema under the receiving object
schema, under properties for a plain name and under patternProperties
for a name with variable references, rejecting duplicate keys, then
record the name as required when the param demands it. -/
def addProperty (heap : List SchemaNode) (poid : Nat) (nm : String)
    (sid : Nat) (req : Bool) : Except String (List SchemaNode) :=
  match heap[poid]? with
  | none => .error "dangling schema id"
  | some po =>
      if isPlainName nm then
        let props := po.properties.getD []
        if props.any (fun q => q.1 = nm) then
          .error "duplicate property for parameter"
        else
          let heap2 := heap.set poid { po with properties := some (props ++ [(nm, sid)]) }
          .ok (if req then requiredPush heap2 poid nm else heap2)
      else
        let pat := buildPattern (nameParts nm)
        let pats := po.patternProperties.getD []
        if pats.any (fun q => q.1 = pat) then
          .error "duplicate patternProperty for parameter"
        else
          let heap2 := heap.set poid { po with patternProperties := some (pats ++ [(pat, sid)]) }
          .ok (if req then requiredPush heap2 poid nm else heap2)

/-- One iteration of the loop of transformBodyParams (part_010 lines
359-502) on one body_param.  Warnings (unrecognized properties,
direct_child_of_object) are elided; thrown errors are the error
results.  The schema visit of line 406 allocates the new schema node;
the splice of line 501 truncates the depth stack and records it. -/
def transformBodyParamsStep (st : BPState) (p : BodyParam) :
    Except String BPState :=
  if p.indentation < 2 ∨ p.indentation % 2 ≠ 0 then
    .error "indentation is not a multiple of indentIncrement"
  else
    let depth : Nat := (p.indentation / 2).toNat
    let st1 := gapFixState st depth
    match st1.schemaForDepth[depth - 1]? with
    | none => .error "param has no parent at indent"
    | some pid =>
        match st1.heap[pid]? with
        | none => .error "dangling schema id"
        | some parent =>
            let sid := st1.heap.length
            let heap1 := st1.heap ++ [({ stype := p.ptype } : SchemaNode)]
            if parent.stype = some "array" ∧ isFalsyName p.name then
              match parent.items with
              | some _ => .error "item schema for array with existing item schema"
              | none =>
                  .ok { heap := heap1.set pid { parent with items := some sid },
                        schemaForDepth := st1.schemaForDepth.take depth ++ [sid] }
            else
              match resolveParentObject heap1 pid parent with
              | .error e => .error e
              | .ok (heap2, poid) =>
                  if isFalsyName p.name then
                    .error "missing name for child param of object"
                  else
                    match addProperty heap2 poid (p.name.getD "") sid p.required with
                    | .error e => .error e
                    | .ok heap3 =>
                        .ok { heap := heap3,
                              schemaForDepth := st1.schemaForDepth.take depth ++ [sid] }

/-- transformBodyParams (part_010 lines 354-505): fold the step over
the params from the initial root-object state.  The JS return value is
the root schema, the tree rooted at heap id 0 of the final state. -/
def transformBodyParams (params : List BodyParam) : Except String BPState :=
  params.foldlM transformBodyParamsStep initState

/-- The condition under which the gap fix of lines 388-397 synthesizes
the wrapper instead of letting the parent lookup fail. -/
def gapTolerated (st : BPState) (depth : Nat) : Prop :=
  2 < depth ∧ depth - 1 = st.schemaForDepth.length ∧
    ∃ gid gnode, st.schemaForDepth[depth - 2]? = some gid ∧
      st.heap[gid]? = some gnode ∧ gnode.stype = some "array" ∧ gnode.items = none

end BodyParams

-- Theorems
-- ===================================================================

namespace MakeFilter

/-- JS indexOf returns -1 exactly on absent elements. -/
theorem jsIndexOf_eq_neg_one_of_not_mem (l : List String) (s : String)
    (h : s ∉ l) : jsIndexOf l s = -1 := by
  induction l with
  | nil => rfl
  | cons x rest ih =>
      simp only [List.mem_cons, not_or] at h
      simp [jsIndexOf, Ne.symm h.1, ih h.2]

/-- A nonnegative JS indexOf implies membership. -/
theorem mem_of_jsIndexOf_nonneg (l : List String) (s : String)
    (h : 0 ≤ jsIndexOf l s) : s ∈ l := by
  by_contra hmem
  rw [jsIndexOf_eq_neg_one_of_not_mem l s hmem] at h
  omega

theorem endpointFilter_eq_true_iff (m : Int) (incl : List String) (e : Endpoint) :
    endpointFilter m incl e = true ↔
      ((e.internal_only = false ∨ m ≤ 0) ∧
       ((∃ bp ∈ e.beta_programs, bp ∈ incl) ∨
        jsIndexOf supportLevels e.support_level ≥ m)) := by
  unfold endpointFilter
  have hany : (e.beta_programs.any (fun bp => incl.contains bp) = true) ↔
      ∃ bp ∈ e.beta_programs, bp ∈ incl := by
    simp [List.any_eq_true, List.elem_iff]
  cases hio : e.internal_only <;>
    by_cases hm : m > 0 <;>
    by_cases hb : e.beta_programs.any (fun bp => incl.contains bp) = true <;>
    simp [hio, hm, hb, hany] <;> omega

theorem makeEndpointFilter_ok (minS : String) (incl : List String)
    (f : Endpoint → Bool) (h : makeEndpointFilter minS incl = .ok f) :
    0 ≤ jsIndexOf supportLevels minS ∧
      f = endpointFilter (jsIndexOf supportLevels minS) incl := by
  unfold makeEndpointFilter at h
  split at h
  · exact absurd h (by simp)
  · next hneg => exact ⟨by omega, by injection h with h; exact h.symm⟩

theorem minIndex_eq_zero_iff (minS : String)
    (hmem : minS ∈ supportLevels) :
    jsIndexOf supportLevels minS ≤ 0 ↔ minS = "internal" := by
  have hcases : minS = "internal" ∨ minS = "alpha" ∨ minS = "beta" ∨ minS = "production" := by
    simpa [supportLevels] using hmem
  rcases hcases with rfl | rfl | rfl | rfl <;> simp [jsIndexOf, supportLevels]

/-- Claim C2: the filter returned by makeEndpointFilter(minSupportLevel,
includeBetaPrograms) returns true exactly when (internal_only is false
OR minSupportLevel is the lowest level internal) AND (some element of
beta_programs is in includeBetaPrograms OR the rank of support_level in
the order internal < alpha < beta < production is at least the rank of
minSupportLevel); makeEndpointFilter("beta", []) excludes a non-internal
alpha endpoint with no beta programs and includes a production endpoint;
any internal_only endpoint is excluded at any threshold above internal;
an unrecognized support_level passes only via the beta-program clause. -/
theorem makeEndpointFilter_spec :
    (∀ minSupportLevel includeBetaPrograms f,
      makeEndpointFilter minSupportLevel includeBetaPrograms = .ok f →
      ∀ e : Endpoint,
        (f e = true ↔
          ((e.internal_only = false ∨ minSupportLevel = "internal") ∧
           ((∃ bp ∈ e.beta_programs, bp ∈ includeBetaPrograms) ∨
            jsIndexOf supportLevels e.support_level ≥
              jsIndexOf supportLevels minSupportLevel))))
    ∧ (∀ f, makeEndpointFilter "beta" [] = .ok f →
        f ⟨"alpha", [], false⟩ = false ∧ f ⟨"production", [], false⟩ = true)
    ∧ (∀ minSupportLevel includeBetaPrograms f e,
        makeEndpointFilter minSupportLevel includeBetaPrograms = .ok f →
        minSupportLevel ≠ "internal" → e.internal_only = true → f e = false)
    ∧ (∀ minSupportLevel includeBetaPrograms f e,
        makeEndpointFilter minSupportLevel includeBetaPrograms = .ok f →
        e.support_level ∉ supportLevels → f e = true →
        ∃ bp ∈ e.beta_programs, bp ∈ includeBetaPrograms) := by
  refine ⟨?_, ?_, ?_, ?_⟩
  · intro minS incl f h e
    obtain ⟨hm, rfl⟩ := makeEndpointFilter_ok minS incl f h
    rw [endpointFilter_eq_true_iff,
      minIndex_eq_zero_iff minS (mem_of_jsIndexOf_nonneg _ _ hm)]
  · intro f h
    obtain ⟨hm, rfl⟩ := makeEndpointFilter_ok _ _ f h
    constructor <;> rfl
  · intro minS incl f e h hni hio
    obtain ⟨hm, rfl⟩ := makeEndpointFilter_ok minS incl f h
    have hne0 : ¬ (jsIndexOf supportLevels minS ≤ 0) := by
      rw [minIndex_eq_zero_iff minS (mem_of_jsIndexOf_nonneg _ _ hm)]
      exact hni
    rw [Bool.eq_false_iff]
    intro hf
    rw [endpointFilter_eq_true_iff] at hf
    rcases hf.1 with h' | h'
    · rw [hio] at h'; exact absurd h' (by simp)
    · exact hne0 h'
  · intro minS incl f e h hsl hf
    obtain ⟨hm, rfl⟩ := makeEndpointFilter_ok minS incl f h
    rw [endpointFilter_eq_true_iff] at hf
    rcases hf.2 with h' | h'
    · exact h'
    · rw [jsIndexOf_eq_neg_one_of_not_mem _ _ hsl] at h'
      omega

/-- Witness for C2. -/
theorem makeEndpointFilter_spec_witness :
    endpointFilter 2 [] ⟨"alpha", [], false⟩ = false ∧
      endpointFilter 2 [] ⟨"production", [], false⟩ = true :=
  makeEndpointFilter_spec.2.1 (endpointFilter 2 []) rfl


end MakeFilter

namespace Combine

/-- Claim C10: combineOpenapi applied to an empty array of documents
returns undefined (modelled as none) rather than an empty document or
an error. -/
theorem combineOpenapi_empty : combineOpenapi [] = .ok none := rfl

end Combine


namespace JsVal

mutual

theorem beq_refl : ∀ a : JsVal, beq a a = true
  | .null => rfl
  | .bool a => by simp [beq]
  | .num a => by simp [beq]
  | .str a => by simp [beq]
  | .arr a => by simpa [beq] using beqList_refl a
  | .obj a => by simpa [beq] using beqFields_refl a

theorem beqList_refl : ∀ a : List JsVal, beqList a a = true
  | [] => rfl
  | a :: as => by
      simp only [beqList, Bool.and_eq_true]
      exact ⟨beq_refl a, beqList_refl as⟩

theorem beqFields_refl : ∀ a : List (String × JsVal), beqFields a a = true
  | [] => rfl
  | a :: as => by
      simp only [beqFields, Bool.and_eq_true]
      exact ⟨⟨by simp, beq_refl a.2⟩, beqFields_refl as⟩

end

end JsVal

namespace Combine

theorem addTags_cons_some (acc : List Tag) (u : Tag) (rest : List Tag) (oldTag : Tag)
    (hfind : acc.find? (fun t0 => t0.name = u.name) = some oldTag) :
    addTags acc (u :: rest) =
      if JsVal.beq u.value oldTag.value = true then addTags acc rest
      else .error "Tag must match" := by
  simp only [addTags, hfind]

theorem addTags_cons_none (acc : List Tag) (u : Tag) (rest : List Tag)
    (hfind : acc.find? (fun t0 => t0.name = u.name) = none) :
    addTags acc (u :: rest) = addTags (acc ++ [u]) rest := by
  simp only [addTags, hfind]

theorem insTag_eq_self (acc : List Tag) (u : Tag) (oldTag : Tag)
    (hfind : acc.find? (fun t0 => t0.name = u.name) = some oldTag) :
    insTag acc u = acc := by
  unfold insTag
  rw [if_pos]
  rw [List.any_eq_true]
  have h3 := List.find?_some hfind
  exact ⟨oldTag, List.mem_of_find?_eq_some hfind, h3⟩

theorem insTag_eq_append (acc : List Tag) (u : Tag)
    (hfind : acc.find? (fun t0 => t0.name = u.name) = none) :
    insTag acc u = acc ++ [u] := by
  unfold insTag
  rw [if_neg]
  rw [List.any_eq_true]
  rintro ⟨t0, ht0, hname⟩
  have := List.find?_eq_none.mp hfind t0 ht0
  simp_all

theorem addTags_ok_of (acc l)
    (hAcc : ∀ t ∈ l, ∀ t0 ∈ acc, t0.name = t.name → JsVal.beq t.value t0.value = true)
    (hL : ∀ t1 ∈ l, ∀ t2 ∈ l, t1.name = t2.name → JsVal.beq t1.value t2.value = true) :
    addTags acc l = .ok (l.foldl insTag acc) := by
  induction l generalizing acc with
  | nil => simp [addTags]
  | cons u rest ih =>
      rw [List.foldl_cons]
      cases hfind : acc.find? (fun t0 => t0.name = u.name) with
      | some oldTag =>
          have hname : oldTag.name = u.name := by
            simpa using List.find?_some hfind
          have hbeq := hAcc u (by simp) oldTag (List.mem_of_find?_eq_some hfind) hname
          rw [addTags_cons_some acc u rest oldTag hfind, if_pos hbeq,
            insTag_eq_self acc u oldTag hfind]
          exact ih acc (fun t' ht' t0 ht0 => hAcc t' (by simp [ht']) t0 ht0)
            (fun t1 h1 t2 h2 => hL t1 (by simp [h1]) t2 (by simp [h2]))
      | none =>
          rw [addTags_cons_none acc u rest hfind, insTag_eq_append acc u hfind]
          refine ih (acc ++ [u]) ?_ ?_
          · intro t' ht' t0 ht0 hname
            simp only [List.mem_append, List.mem_singleton] at ht0
            rcases ht0 with ht0 | heq0
            · exact hAcc t' (by simp [ht']) t0 ht0 hname
            · subst heq0
              exact hL t' (by simp [ht']) t0 (by simp) hname.symm
          · intro t1 h1 t2 h2 hname
            exact hL t1 (by simp [h1]) t2 (by simp [h2]) hname

theorem addTags_ok_eq (acc l out) (h : addTags acc l = .ok out) :
    out = l.foldl insTag acc := by
  induction l generalizing acc with
  | nil => simp [addTags] at h; simp [h.symm]
  | cons u rest ih =>
      rw [List.foldl_cons]
      cases hfind : acc.find? (fun t0 => t0.name = u.name) with
      | some oldTag =>
          rw [addTags_cons_some acc u rest oldTag hfind] at h
          split at h
          · rw [insTag_eq_self acc u oldTag hfind]
            exact ih acc h
          · exact absurd h (by simp)
      | none =>
          rw [addTags_cons_none acc u rest hfind] at h
          rw [insTag_eq_append acc u hfind]
          exact ih (acc ++ [u]) h

theorem addTags_ok_coherent (acc l out) (h : addTags acc l = .ok out) :
    ∀ t ∈ l, ∃ t0, (acc ++ l).find? (fun x => x.name = t.name) = some t0 ∧
      JsVal.beq t.value t0.value = true := by
  induction l generalizing acc with
  | nil => simp
  | cons u rest ih =>
      intro t ht
      simp only [List.mem_cons] at ht
      cases hfind : acc.find? (fun t0 => t0.name = u.name) with
      | some oldTag =>
          rw [addTags_cons_some acc u rest oldTag hfind] at h
          split at h
          · next hbeq =>
              rcases ht with rfl | ht
              · refine ⟨oldTag, ?_, hbeq⟩
                rw [List.find?_append, hfind]
                rfl
              · obtain ⟨t0, hfind0, hbeq0⟩ := ih acc h t ht
                refine ⟨t0, ?_, hbeq0⟩
                cases hfa : acc.find? (fun x => x.name = t.name) with
                | some w =>
                    rw [List.find?_append, hfa] at hfind0
                    rw [List.find?_append, hfa]
                    simpa using hfind0
                | none =>
                    rw [List.find?_append, hfa] at hfind0
                    rw [List.find?_append, hfa]
                    simp only [Option.none_or] at hfind0 ⊢
                    have hun : ¬ (u.name = t.name) := by
                      intro hun
                      have h2 := List.mem_of_find?_eq_some hfind
                      have := List.find?_eq_none.mp hfa oldTag h2
                      have h3 : oldTag.name = u.name := by
                        simpa using List.find?_some hfind
                      rw [h3, hun] at this
                      simp at this
                    rw [List.find?_cons_of_neg]
                    · exact hfind0
                    · simpa using hun
          · exact absurd h (by simp)
      | none =>
          rw [addTags_cons_none acc u rest hfind] at h
          have hacc : (acc ++ [u]) ++ rest = acc ++ u :: rest := by simp
          rcases ht with rfl | ht
          · refine ⟨t, ?_, JsVal.beq_refl t.value⟩
            rw [List.find?_append, hfind]
            simp [List.find?_cons]
          · obtain ⟨t0, hfind0, hbeq0⟩ := ih (acc ++ [u]) h t ht
            rw [hacc] at hfind0
            exact ⟨t0, hfind0, hbeq0⟩

end Combine


namespace Combine

theorem dedupFirstByName_cons (u : Tag) (rest : List Tag) :
    dedupFirstByName (u :: rest) =
      u :: dedupFirstByName (rest.filter (fun t => t.name ≠ u.name)) := by
  simp [dedupFirstByName]

theorem foldl_insTag_eq (l : List Tag) : ∀ acc : List Tag,
    l.foldl insTag acc =
      acc ++ dedupFirstByName
        (l.filter (fun t => ¬ acc.any (fun t0 => t0.name = t.name))) := by
  induction l with
  | nil => intro acc; simp [dedupFirstByName]
  | cons u rest ih =>
      intro acc
      rw [List.foldl_cons]
      by_cases hin : acc.any (fun t0 => t0.name = u.name)
      · have hins : insTag acc u = acc := by unfold insTag; rw [if_pos hin]
        rw [hins, ih acc]
        congr 1
        congr 1
        rw [List.filter_cons]
        simp [hin]
      · have hins : insTag acc u = acc ++ [u] := by unfold insTag; rw [if_neg hin]
        rw [hins, ih (acc ++ [u])]
        rw [List.append_assoc]
        congr 1
        rw [List.filter_cons]
        have hu : (¬ (acc.any (fun t0 => t0.name = u.name) : Bool)) = True := by simp [hin]
        simp only [decide_not, hu]
        rw [if_pos (by simp [hin])]
        rw [List.singleton_append, dedupFirstByName_cons]
        congr 1
        rw [List.filter_filter]
        congr 1
        apply List.filter_congr
        intro t ht
        simp only [List.any_append, List.any_cons, List.any_nil, Bool.or_false,
          Bool.not_or, decide_not]
        rw [Bool.and_comm]
        by_cases h : u.name = t.name
        · simp [h]
        · have h2 : ¬ t.name = u.name := fun hh => h hh.symm
          simp [h, h2]
  
end Combine

namespace Combine

theorem combineStep_ok_parts (st : CombineState) (doc : OpenapiDoc)
    (st' : CombineState) (h : combineStep st doc = .ok st') :
    jsStartsWith doc.openapi "3." = true ∧
    (∀ v, st.firstVer = some v → doc.openapi = v) ∧
    doc.extraKeys = [] ∧
    ∃ tb, addTags st.tagsByName (tagsOfDoc doc) = .ok tb ∧
    ∃ cp, addPaths st.combinedPaths doc.paths = .ok cp ∧
      st' = ⟨cp, tb, some (st.firstVer.getD doc.openapi)⟩ := by
  unfold combineStep at h
  split at h
  · exact absurd h (by simp)
  · split at h
    · exact absurd h (by simp)
    · split at h
      · exact absurd h (by simp)
      · next h1 h2 h3 =>
          refine ⟨by simpa using h1, ?_, by simpa using h3, ?_⟩
          · intro v hv
            rw [hv] at h2
            simpa using h2
          · cases hdoc : doc.tags with
            | some tags =>
                rw [hdoc] at h
                dsimp only at h
                cases hadd : addTags st.tagsByName tags with
                | error e => rw [hadd] at h; exact absurd h (by simp)
                | ok tb =>
                    rw [hadd] at h
                    refine ⟨tb, by simp [tagsOfDoc, hdoc, hadd], ?_⟩
                    cases hpp : addPaths st.combinedPaths doc.paths with
                    | error e => rw [hpp] at h; exact absurd h (by simp)
                    | ok cp =>
                        rw [hpp] at h
                        exact ⟨cp, rfl, by injection h with h; exact h.symm⟩
            | none =>
                rw [hdoc] at h
                dsimp only at h
                refine ⟨st.tagsByName, by simp [tagsOfDoc, hdoc, addTags], ?_⟩
                cases hpp : addPaths st.combinedPaths doc.paths with
                | error e => rw [hpp] at h; exact absurd h (by simp)
                | ok cp =>
                    rw [hpp] at h
                    exact ⟨cp, rfl, by injection h with h; exact h.symm⟩

theorem combineStep_ok_of (st : CombineState) (doc : OpenapiDoc)
    (h3 : jsStartsWith doc.openapi "3." = true)
    (hver : ∀ v, st.firstVer = some v → doc.openapi = v)
    (hex : doc.extraKeys = [])
    (tb : List Tag) (htb : addTags st.tagsByName (tagsOfDoc doc) = .ok tb)
    (cp : List (String × JsVal)) (hcp : addPaths st.combinedPaths doc.paths = .ok cp) :
    combineStep st doc = .ok ⟨cp, tb, some (st.firstVer.getD doc.openapi)⟩ := by
  unfold combineStep
  rw [if_neg (by simpa using h3)]
  rw [if_neg (by
    cases hv : st.firstVer with
    | none => simp
    | some v => simp [hver v hv])]
  rw [if_neg (by simpa using hex)]
  cases hdoc : doc.tags with
  | some tags =>
      unfold tagsOfDoc at htb
      rw [hdoc] at htb
      simp only [Option.getD_some] at htb
      dsimp only
      rw [htb, hcp]
  | none =>
      unfold tagsOfDoc at htb
      rw [hdoc] at htb
      simp only [Option.getD_none] at htb
      have haddnil : addTags st.tagsByName [] = .ok st.tagsByName := by simp [addTags]
      rw [haddnil] at htb
      injection htb with htb
      subst htb
      dsimp only
      rw [hcp]

end Combine


namespace Combine

theorem addPaths_ok_of (acc : List (String × JsVal)) (l : List (String × JsVal))
    (hfresh : ∀ k ∈ l.map Prod.fst, ¬ ∃ p ∈ acc, p.1 = k)
    (hnodup : (l.map Prod.fst).Nodup) :
    addPaths acc l = .ok (acc ++ l) := by
  induction l generalizing acc with
  | nil => simp [addPaths]
  | cons p rest ih =>
      obtain ⟨k, v⟩ := p
      have hk : ¬ acc.any (fun q => q.1 = k) := by
        intro hany
        rw [List.any_eq_true] at hany
        obtain ⟨q, hq, hqk⟩ := hany
        exact hfresh k (by simp) ⟨q, hq, by simpa using hqk⟩
      simp only [addPaths, hk, if_false]
      rw [ih]
      · simp
      · intro k2 hk2 ⟨q, hq, hqk⟩
        simp only [List.mem_append, List.mem_singleton] at hq
        rcases hq with hq | rfl
        · exact hfresh k2 (by simp [hk2]) ⟨q, hq, hqk⟩
        · simp only [List.map_cons, List.nodup_cons] at hnodup
          simp only at hqk
          subst hqk
          exact hnodup.1 hk2
      · simp only [List.map_cons, List.nodup_cons] at hnodup
        exact hnodup.2

theorem addPaths_ok_eq (acc l out) (h : addPaths acc l = .ok out) :
    out = acc ++ l := by
  induction l generalizing acc with
  | nil => simp [addPaths] at h; simp [h.symm]
  | cons p rest ih =>
      obtain ⟨k, v⟩ := p
      simp only [addPaths] at h
      split at h
      · exact absurd h (by simp)
      · have := ih (acc ++ [(k, v)]) h
        simpa using this

theorem addPaths_ok_nodup (acc l out) (h : addPaths acc l = .ok out)
    (hacc : (acc.map Prod.fst).Nodup) : (out.map Prod.fst).Nodup := by
  induction l generalizing acc with
  | nil => simp [addPaths] at h; simp [h.symm, hacc]
  | cons p rest ih =>
      obtain ⟨k, v⟩ := p
      simp only [addPaths] at h
      split at h
      · exact absurd h (by simp)
      · next hnew =>
          refine ih (acc ++ [(k, v)]) h ?_
          simp only [List.any_eq_true] at hnew
          simp only [List.map_append, List.map_cons, List.map_nil]
          rw [List.nodup_append]
          refine ⟨hacc, by simp, ?_⟩
          intro a ha
          simp only [List.mem_singleton]
          intro hb
          subst hb
          simp only [List.mem_map] at ha
          obtain ⟨q, hq, hqk⟩ := ha
          exact hnew ⟨q, hq, by simpa using hqk⟩

end Combine

namespace Combine

theorem mem_foldl_insTag (l : List Tag) : ∀ (acc : List Tag) (t : Tag),
    t ∈ l.foldl insTag acc → t ∈ acc ++ l := by
  induction l with
  | nil => intro acc t h; simpa using h
  | cons u rest ih =>
      intro acc t h
      rw [List.foldl_cons] at h
      have := ih (insTag acc u) t h
      unfold insTag at this
      split at this
      · rcases List.mem_append.mp this with h1 | h1 <;> simp [h1]
      · rcases List.mem_append.mp this with h1 | h1
        · rcases List.mem_append.mp h1 with h2 | h2
          · simp [h2]
          · simp only [List.mem_singleton] at h2; simp [h2]
        · simp [h1]

theorem foldl_insTag_find? (l : List Tag) : ∀ (acc : List Tag) (n : String),
    (l.foldl insTag acc).find? (fun x => x.name = n) =
      (acc ++ l).find? (fun x => x.name = n) := by
  induction l with
  | nil => intro acc n; simp
  | cons u rest ih =>
      intro acc n
      rw [List.foldl_cons]
      by_cases hin : acc.any (fun t0 => t0.name = u.name) = true
      · have hins : insTag acc u = acc := by unfold insTag; rw [if_pos hin]
        rw [hins, ih acc n]
        rw [List.find?_append, List.find?_append]
        cases hfa : acc.find? (fun x => x.name = n) with
        | some w => simp
        | none =>
            have hun : ¬ (u.name = n) := by
              intro hh
              rw [List.any_eq_true] at hin
              obtain ⟨t0, ht0, ht0n⟩ := hin
              have h4 := List.find?_eq_none.mp hfa t0 ht0
              simp only [decide_eq_true_eq] at ht0n h4
              exact h4 (by rw [ht0n, hh])
            simp only [Option.none_or]
            rw [List.find?_cons_of_neg]
            simpa using hun
      · have hins : insTag acc u = acc ++ [u] := by unfold insTag; rw [if_neg hin]
        rw [hins, ih (acc ++ [u]) n]
        simp

theorem foldlM_combine_ok (docs : List OpenapiDoc) : ∀ (st stf : CombineState),
    docs.foldlM combineStep st = .ok stf →
    (∀ d ∈ docs, d.extraKeys = []) ∧
    (∀ v, st.firstVer = some v → ∀ d ∈ docs, d.openapi = v) ∧
    (∀ d1 ∈ docs, ∀ d2 ∈ docs, d1.openapi = d2.openapi) ∧
    stf.combinedPaths = st.combinedPaths ++ docs.flatMap (fun d => d.paths) ∧
    ((st.combinedPaths.map Prod.fst).Nodup → (stf.combinedPaths.map Prod.fst).Nodup) ∧
    stf.tagsByName = (docs.flatMap tagsOfDoc).foldl insTag st.tagsByName ∧
    (∀ t ∈ docs.flatMap tagsOfDoc, ∃ t0,
      (st.tagsByName ++ docs.flatMap tagsOfDoc).find? (fun x => x.name = t.name) = some t0 ∧
      JsVal.beq t.value t0.value = true) := by
  induction docs with
  | nil =>
      intro st stf h
      simp only [List.foldlM_nil] at h
      injection h with h
      subst h
      refine ⟨by simp, by simp, by simp, by simp, fun h => h, by simp [tagsOfDoc], by simp⟩
  | cons doc rest ih =>
      intro st stf h
      rw [List.foldlM_cons] at h
      cases hstep : combineStep st doc with
      | error e =>
          rw [hstep] at h
          dsimp only [Bind.bind, Except.bind] at h
          exact absurd h (by simp)
      | ok st1 =>
          rw [hstep] at h
          dsimp only [Bind.bind, Except.bind] at h
          obtain ⟨hstart, hver1, hex1, tb, htb, cp, hcp, hst1⟩ :=
            combineStep_ok_parts st doc st1 hstep
          obtain ⟨ihex, ihver, ihpair, ihpaths, ihnodup, ihtags, ihcoh⟩ := ih st1 stf h
          have hst1paths : st1.combinedPaths = st.combinedPaths ++ doc.paths := by
            rw [hst1]
            exact addPaths_ok_eq _ _ _ hcp
          have hst1tags : st1.tagsByName = (tagsOfDoc doc).foldl insTag st.tagsByName := by
            rw [hst1]
            exact addTags_ok_eq _ _ _ htb
          have hst1ver : st1.firstVer = some (st.firstVer.getD doc.openapi) := by
            rw [hst1]
          refine ⟨?_, ?_, ?_, ?_, ?_, ?_, ?_⟩
          · intro d hd
            rcases List.mem_cons.mp hd with rfl | hd
            · exact hex1
            · exact ihex d hd
          · intro v hv d hd
            rcases List.mem_cons.mp hd with rfl | hd
            · exact hver1 v hv
            · refine ihver v ?_ d hd
              rw [hst1ver, hv]
              simp
          · have hall : ∀ d ∈ doc :: rest, d.openapi = doc.openapi := by
              intro d hd
              rcases List.mem_cons.mp hd with rfl | hd
              · rfl
              · have hres := ihver (st.firstVer.getD doc.openapi) hst1ver d hd
                rw [hres]
                cases hfv : st.firstVer with
                | none => simp
                | some v => simp [hver1 v hfv]
            intro d1 hd1 d2 hd2
            rw [hall d1 hd1, hall d2 hd2]
          · rw [ihpaths, hst1paths]
            simp
          · intro hnod
            refine ihnodup ?_
            rw [hst1]
            exact addPaths_ok_nodup _ _ _ hcp hnod
          · rw [ihtags, hst1tags, List.flatMap_cons, List.foldl_append]
          · intro t ht
            rw [List.flatMap_cons] at ht
            rcases List.mem_append.mp ht with ht | ht
            · obtain ⟨t0, hfind0, hbeq0⟩ := addTags_ok_coherent _ _ _ htb t ht
              refine ⟨t0, ?_, hbeq0⟩
              rw [List.flatMap_cons, ← List.append_assoc, List.find?_append, hfind0]
              rfl
            · obtain ⟨t0, hfind0, hbeq0⟩ := ihcoh t ht
              refine ⟨t0, ?_, hbeq0⟩
              rw [hst1tags] at hfind0
              rw [List.find?_append, foldl_insTag_find?] at hfind0
              rw [List.flatMap_cons, ← List.append_assoc, List.find?_append,
                List.find?_append]
              rw [List.find?_append] at hfind0
              rw [Option.or_assoc] at hfind0 ⊢
              exact hfind0


/-- Claim C4: combineOpenapi raises a hard error rather than returning a
document whenever two input documents carry different openapi version
strings, whenever any input document has a top-level property other
than openapi, tags and paths, whenever the same path string occurs in
more than one input document, or whenever two tags with the same name
are not deeply equal (every tag must be deeply equal to the first tag
carrying its name); in particular combine([A, A]) errors for any A with
at least one path.  Stated in contrapositive form: a successful result
forces all of these conditions to hold. -/
theorem combineOpenapi_error_conditions :
    (∀ docs res, combineOpenapi docs = .ok res →
      (∀ d1 ∈ docs, ∀ d2 ∈ docs, d1.openapi = d2.openapi) ∧
      (∀ d ∈ docs, d.extraKeys = []) ∧
      ((docs.flatMap (fun d => d.paths)).map Prod.fst).Nodup ∧
      (∀ t ∈ docs.flatMap tagsOfDoc, ∃ t0,
        (docs.flatMap tagsOfDoc).find? (fun x => x.name = t.name) = some t0 ∧
        JsVal.beq t.value t0.value = true)) ∧
    (∀ A : OpenapiDoc, A.paths ≠ [] → ∀ res, combineOpenapi [A, A] ≠ .ok res) := by
  have hmain : ∀ docs res, combineOpenapi docs = .ok res →
      (∀ d1 ∈ docs, ∀ d2 ∈ docs, d1.openapi = d2.openapi) ∧
      (∀ d ∈ docs, d.extraKeys = []) ∧
      ((docs.flatMap (fun d => d.paths)).map Prod.fst).Nodup ∧
      (∀ t ∈ docs.flatMap tagsOfDoc, ∃ t0,
        (docs.flatMap tagsOfDoc).find? (fun x => x.name = t.name) = some t0 ∧
        JsVal.beq t.value t0.value = true) := by
    intro docs res h
    unfold combineOpenapi at h
    cases hf : docs.foldlM combineStep ⟨[], [], none⟩ with
    | error e => rw [hf] at h; exact absurd h (by simp)
    | ok stf =>
        obtain ⟨hex, hver, hpair, hpaths, hnodup, htags, hcoh⟩ :=
          foldlM_combine_ok docs _ stf hf
        refine ⟨hpair, hex, ?_, ?_⟩
        · have := hnodup (by simp)
          rw [hpaths] at this
          simpa using this
        · intro t ht
          obtain ⟨t0, hfind0, hbeq0⟩ := hcoh t ht
          exact ⟨t0, by simpa using hfind0, hbeq0⟩
  refine ⟨hmain, ?_⟩
  intro A hA res h
  obtain ⟨-, -, hnodup, -⟩ := hmain [A, A] res h
  simp only [List.flatMap_cons, List.flatMap_nil, List.append_nil, List.map_append] at hnodup
  rw [List.nodup_append] at hnodup
  obtain ⟨-, -, hdisj⟩ := hnodup
  cases hAp : A.paths with
  | nil => exact hA hAp
  | cons p ps =>
      have hp : p.1 ∈ (A.paths.map Prod.fst) := by simp [hAp]
      exact hdisj hp hp

/-- Claim C3: for two OpenAPI documents A and B with disjoint path
sets, identical openapi version strings, only recognized top-level
properties, and coherent tags (deep equality of same-named tags, as
always holds for documents produced by the transformer),
combineOpenapi([A, B]) returns a document whose paths mapping is the
union of the two paths mappings in order and whose tags list holds the
distinct tag names in first-seen order, later deeply-equal duplicates
dropped silently. -/
theorem combineOpenapi_two_disjoint (A B : OpenapiDoc)
    (hAex : A.extraKeys = []) (hBex : B.extraKeys = [])
    (hver : B.openapi = A.openapi) (h3 : jsStartsWith A.openapi "3." = true)
    (hAnodup : (A.paths.map Prod.fst).Nodup)
    (hBnodup : (B.paths.map Prod.fst).Nodup)
    (hdisj : ∀ k ∈ A.paths.map Prod.fst, k ∉ B.paths.map Prod.fst)
    (hcoh : ∀ t1 ∈ tagsOfDoc A ++ tagsOfDoc B, ∀ t2 ∈ tagsOfDoc A ++ tagsOfDoc B,
      t1.name = t2.name → JsVal.beq t1.value t2.value = true) :
    combineOpenapi [A, B] = .ok (some
      ⟨A.openapi, dedupFirstByName (tagsOfDoc A ++ tagsOfDoc B), A.paths ++ B.paths⟩) := by
  have hcohA : ∀ t1 ∈ tagsOfDoc A, ∀ t2 ∈ tagsOfDoc A,
      t1.name = t2.name → JsVal.beq t1.value t2.value = true := by
    intro t1 h1 t2 h2
    exact hcoh t1 (by simp [h1]) t2 (by simp [h2])
  have hstep1 : combineStep ⟨[], [], none⟩ A =
      .ok ⟨A.paths, (tagsOfDoc A).foldl insTag [], some A.openapi⟩ := by
    have htb := addTags_ok_of [] (tagsOfDoc A) (by simp) hcohA
    have hcp := addPaths_ok_of [] A.paths (by simp) hAnodup
    have := combineStep_ok_of ⟨[], [], none⟩ A h3 (by simp) hAex _ htb _ hcp
    simpa using this
  have hstep2 : combineStep ⟨A.paths, (tagsOfDoc A).foldl insTag [], some A.openapi⟩ B =
      .ok ⟨A.paths ++ B.paths,
        (tagsOfDoc B).foldl insTag ((tagsOfDoc A).foldl insTag []),
        some A.openapi⟩ := by
    have htb := addTags_ok_of ((tagsOfDoc A).foldl insTag []) (tagsOfDoc B) ?_ ?_
    · have hcp := addPaths_ok_of A.paths B.paths ?_ hBnodup
      · have hstep := combineStep_ok_of
          ⟨A.paths, (tagsOfDoc A).foldl insTag [], some A.openapi⟩ B
          (by rw [hver]; exact h3)
          (by intro v hv; injection hv with hv; rw [hver, hv])
          hBex _ htb _ hcp
        simpa using hstep
      · intro k hk ⟨p, hp, hpk⟩
        have : k ∈ A.paths.map Prod.fst := by
          exact List.mem_map.mpr ⟨p, hp, hpk⟩
        exact hdisj k this hk
    · intro t ht t0 ht0 hname
      have ht0' : t0 ∈ tagsOfDoc A := by
        have := mem_foldl_insTag (tagsOfDoc A) [] t0 ht0
        simpa using this
      exact hcoh t (by simp [ht]) t0 (by simp [ht0']) hname.symm
    · intro t1 h1 t2 h2 hname
      exact hcoh t1 (by simp [h1]) t2 (by simp [h2]) hname
  have hfold : [A, B].foldlM combineStep ⟨[], [], none⟩ =
      .ok ⟨A.paths ++ B.paths,
        (tagsOfDoc B).foldl insTag ((tagsOfDoc A).foldl insTag []),
        some A.openapi⟩ := by
    rw [List.foldlM_cons, hstep1]
    dsimp only [Bind.bind, Except.bind]
    rw [List.foldlM_cons, hstep2]
    dsimp only [Bind.bind, Except.bind]
    rw [List.foldlM_nil]
    rfl
  unfold combineOpenapi
  rw [hfold]
  dsimp only
  congr 2
  rw [← List.foldl_append, foldl_insTag_eq]
  simp only [List.nil_append]
  have hfe : (tagsOfDoc A ++ tagsOfDoc B).filter
      (fun t => ¬ (([] : List Tag).any fun t0 => t0.name = t.name)) =
      tagsOfDoc A ++ tagsOfDoc B := by
    rw [List.filter_eq_self]
    intro t ht
    simp
  rw [hfe]

/-- Witness for C3 at concrete documents. -/
theorem combineOpenapi_two_disjoint_witness :
    combineOpenapi
        [⟨"3.1.0", some [⟨"T", JsVal.str "v"⟩], [("/a", JsVal.null)], []⟩,
         ⟨"3.1.0", some [⟨"T", JsVal.str "v"⟩, ⟨"U", JsVal.num 1⟩], [("/b", JsVal.bool true)], []⟩] =
      .ok (some ⟨"3.1.0",
        dedupFirstByName (tagsOfDoc ⟨"3.1.0", some [⟨"T", JsVal.str "v"⟩], [("/a", JsVal.null)], []⟩ ++
          tagsOfDoc ⟨"3.1.0", some [⟨"T", JsVal.str "v"⟩, ⟨"U", JsVal.num 1⟩], [("/b", JsVal.bool true)], []⟩),
        [("/a", JsVal.null)] ++ [("/b", JsVal.bool true)]⟩) :=
  combineOpenapi_two_disjoint _ _ rfl rfl rfl (by decide) (by simp) (by simp)
    (by decide) (by decide)

/-- Witness for C4 at a concrete document with one path. -/
theorem combineOpenapi_errors_witness :
    combineOpenapi [⟨"3.1.0", none, [("/a", JsVal.null)], []⟩,
        ⟨"3.1.0", none, [("/a", JsVal.null)], []⟩] ≠ .ok none :=
  combineOpenapi_error_conditions.2 ⟨"3.1.0", none, [("/a", JsVal.null)], []⟩ (by simp) none


end Combine

namespace DocBugs

theorem list_set_getD_self : ∀ (l : List JsVal) (i : Nat), i < l.length →
    l.set i (l.getD i .null) = l
  | x :: rest, 0, _ => by simp
  | x :: rest, i + 1, h => by
      simp only [List.getD_cons_succ, List.set_cons_succ]
      rw [list_set_getD_self rest i (by simpa using h)]

theorem setProp_getProp_self (v : JsVal) (p : String)
    (h : hasOwnProp v p = .ok true) : setProp v p (getProp v p) = v := by
  cases v with
  | obj fields =>
      simp only [hasOwnProp, Except.ok.injEq] at h
      simp only [getProp, setProp, JsVal.obj.injEq]
      induction fields with
      | nil => simp at h
      | cons f rest ih =>
          obtain ⟨k, x⟩ := f
          by_cases hk : k = p
          · subst hk
            simp [JsVal.lookupField, setFields]
          · rw [List.any_cons] at h
            have hkp : (k == p) = false := by simpa using hk
            rw [hkp, Bool.false_or] at h
            simp only [JsVal.lookupField, hk, if_false, setFields]
            rw [ih h]
  | arr elems =>
      simp only [hasOwnProp] at h
      cases hp : parseIndex p with
      | none => rw [hp] at h; simp at h
      | some i =>
          rw [hp] at h
          simp only [Except.ok.injEq, decide_eq_true_eq] at h
          simp only [getProp, setProp, hp, JsVal.arr.injEq]
          exact list_set_getD_self elems i h
  | null => simp [hasOwnProp] at h
  | bool b => simp [hasOwnProp] at h
  | num n => simp [hasOwnProp] at h
  | str s => simp [hasOwnProp] at h

end DocBugs

namespace DocBugs

theorem pathCases (v : JsVal) (path : List String) :
    pathAllPresent v path = true ∨ pathMissesBenignly v path = true ∨
      pathHitsNull v path = true := by
  induction path generalizing v with
  | nil => simp [pathAllPresent]
  | cons p rest ih =>
      cases hop : hasOwnProp v p with
      | error e =>
          right; right
          simp [pathHitsNull, hop]
      | ok b =>
          cases b with
          | false =>
              right; left
              simp [pathMissesBenignly, hop]
          | true =>
              rcases ih (getProp v p) with h | h | h
              · left; simp [pathAllPresent, hop, h]
              · right; left; simp [pathMissesBenignly, hop, h]
              · right; right; simp [pathHitsNull, hop, h]

/-- Claim C8 counterexample: on a null node the own-property test of
applyToPath throws a TypeError instead of warning and returning the
tree unchanged. -/
theorem applyToPath_null_throws :
    applyToPath (fun v => v) JsVal.null ["a"] =
      .error "TypeError: Cannot convert undefined or null to object" := rfl

/-- Claim C8 (amended): as long as the walk never reaches a null node,
applyToPath never throws: when some path segment is missing on the
(non-null) node reached so far it returns the original tree unchanged,
and when every segment is present it returns the input tree with only
the node at the path replaced by the transform result. -/
theorem applyToPath_spec :
    (∀ (transform : JsVal → JsVal) (v : JsVal) (path : List String),
      pathMissesBenignly v path = true → applyToPath transform v path = .ok v) ∧
    (∀ (transform : JsVal → JsVal) (v : JsVal) (path : List String),
      pathAllPresent v path = true →
        applyToPath transform v path =
          .ok (setAtPath v path (transform (getAtPath v path)))) ∧
    (∀ (transform : JsVal → JsVal) (v : JsVal) (path : List String),
      pathHitsNull v path = false → ∃ r, applyToPath transform v path = .ok r) := by
  have hmiss : ∀ (transform : JsVal → JsVal) (path : List String) (v : JsVal),
      pathMissesBenignly v path = true → applyToPath transform v path = .ok v := by
    intro transform path
    induction path with
    | nil => intro v h; simp [pathMissesBenignly] at h
    | cons p rest ih =>
        intro v h
        cases hop : hasOwnProp v p with
        | error e => simp [pathMissesBenignly, hop] at h
        | ok b =>
            cases b with
            | false => simp [applyToPath, hop]
            | true =>
                simp only [pathMissesBenignly, hop] at h
                simp only [applyToPath, hop]
                rw [ih (getProp v p) h]
                dsimp only
                rw [setProp_getProp_self v p hop]
  have hall : ∀ (transform : JsVal → JsVal) (path : List String) (v : JsVal),
      pathAllPresent v path = true →
        applyToPath transform v path =
          .ok (setAtPath v path (transform (getAtPath v path))) := by
    intro transform path
    induction path with
    | nil => intro v h; simp [applyToPath, setAtPath, getAtPath]
    | cons p rest ih =>
        intro v h
        cases hop : hasOwnProp v p with
        | error e => simp [pathAllPresent, hop] at h
        | ok b =>
            cases b with
            | false => simp [pathAllPresent, hop] at h
            | true =>
                simp only [pathAllPresent, hop] at h
                simp only [applyToPath, hop]
                rw [ih (getProp v p) h]
                dsimp only
                simp [setAtPath, getAtPath]
  refine ⟨fun t v path => hmiss t path v, fun t v path => hall t path v, ?_⟩
  intro t v path hnull
  rcases pathCases v path with h | h | h
  · exact ⟨_, hall t path v h⟩
  · exact ⟨v, hmiss t path v h⟩
  · rw [h] at hnull; exact absurd hnull (by simp)

/-- Witness for C8 at a concrete tree, path and transform. -/
theorem applyToPath_spec_witness :
    applyToPath (fun _ => JsVal.num 7)
        (JsVal.obj [("a", JsVal.arr [JsVal.str "x", JsVal.str "y"]), ("b", JsVal.null)])
        ["a", "1"] =
      .ok (setAtPath
        (JsVal.obj [("a", JsVal.arr [JsVal.str "x", JsVal.str "y"]), ("b", JsVal.null)])
        ["a", "1"]
        ((fun _ => JsVal.num 7)
          (getAtPath
            (JsVal.obj [("a", JsVal.arr [JsVal.str "x", JsVal.str "y"]), ("b", JsVal.null)])
            ["a", "1"]))) :=
  applyToPath_spec.2.1 (fun _ => JsVal.num 7)
    (JsVal.obj [("a", JsVal.arr [JsVal.str "x", JsVal.str "y"]), ("b", JsVal.null)])
    ["a", "1"] (by decide)

end DocBugs

namespace Endpoints

theorem lookup2_append_new (paths : List (String × List (String × Endpoint)))
    (pe ve : String) (e : Endpoint)
    (hnone : paths.find? (fun q => q.1 = pe) = none) (p v : String) :
    lookup2 (paths ++ [(pe, [(ve, e)])]) p v =
      if p = pe ∧ v = ve then some e else lookup2 paths p v := by
  by_cases hp : p = pe
  · subst hp
    by_cases hv : v = ve
    · subst hv
      rw [if_pos ⟨rfl, rfl⟩]
      unfold lookup2
      rw [List.find?_append, hnone]
      simp only [Option.none_or]
      rw [List.find?_cons_of_pos _ (by simp)]
      simp only
      rw [List.find?_cons_of_pos _ (by simp)]
      simp
    · rw [if_neg (by simp [hv])]
      unfold lookup2
      rw [List.find?_append, hnone]
      simp only [Option.none_or]
      rw [List.find?_cons_of_pos _ (by simp)]
      simp only
      rw [List.find?_cons_of_neg _ (by simpa using fun hh => hv hh.symm)]
      simp
  · rw [if_neg (by simp [hp])]
    unfold lookup2
    rw [List.find?_append]
    cases hfp : paths.find? (fun q => q.1 = p) with
    | some item => simp
    | none =>
        simp only [Option.none_or]
        rw [List.find?_cons_of_neg _ (by simpa using fun hh => hp hh.symm)]
        simp

theorem find?_setAssoc_self {α : Type} (paths : List (String × α))
    (key : String) (x : α) (item : String × α)
    (hfind : paths.find? (fun q => q.1 = key) = some item) :
    (setAssoc paths key x).find? (fun q => q.1 = key) = some (item.1, x) := by
  induction paths with
  | nil => simp at hfind
  | cons q rest ih =>
      obtain ⟨k, w⟩ := q
      by_cases hk : k = key
      · subst hk
        rw [List.find?_cons_of_pos _ (by simp)] at hfind
        injection hfind with hfind
        subst hfind
        simp [setAssoc, List.find?_cons_of_pos]
      · rw [List.find?_cons_of_neg _ (by simpa using hk)] at hfind
        simp only [setAssoc, hk, if_false]
        rw [List.find?_cons_of_neg _ (by simpa using hk)]
        exact ih hfind

theorem find?_setAssoc_other {α : Type} (paths : List (String × α))
    (key : String) (x : α) (p : String) (hp : p ≠ key) :
    (setAssoc paths key x).find? (fun q => q.1 = p) =
      paths.find? (fun q => q.1 = p) := by
  induction paths with
  | nil => simp [setAssoc]
  | cons q rest ih =>
      obtain ⟨k, w⟩ := q
      by_cases hk : k = key
      · subst hk
        unfold setAssoc
        rw [if_pos rfl]
        have hkp : ¬ (k = p) := fun hh => hp hh.symm
        rw [List.find?_cons_of_neg _ (by simpa using hkp),
          List.find?_cons_of_neg _ (by simpa using hkp)]
      · simp only [setAssoc, hk, if_false]
        by_cases hkp : k = p
        · subst hkp
          rw [List.find?_cons_of_pos _ (by simp), List.find?_cons_of_pos _ (by simp)]
        · rw [List.find?_cons_of_neg _ (by simpa using hkp),
            List.find?_cons_of_neg _ (by simpa using hkp)]
          exact ih

theorem lookup2_setAssoc (paths : List (String × List (String × Endpoint)))
    (pe ve : String) (e : Endpoint) (item : String × List (String × Endpoint))
    (hfind : paths.find? (fun q => q.1 = pe) = some item)
    (hv : item.2.find? (fun q => q.1 = ve) = none) (p v : String) :
    lookup2 (setAssoc paths pe (item.2 ++ [(ve, e)])) p v =
      if p = pe ∧ v = ve then some e else lookup2 paths p v := by
  by_cases hp : p = pe
  · subst hp
    by_cases hvv : v = ve
    · subst hvv
      rw [if_pos ⟨rfl, rfl⟩]
      unfold lookup2
      rw [find?_setAssoc_self paths p (item.2 ++ [(v, e)]) item hfind]
      simp only
      rw [List.find?_append, hv]
      simp only [Option.none_or]
      rw [List.find?_cons_of_pos _ (by simp)]
      simp
    · rw [if_neg (by simp [hvv])]
      unfold lookup2
      rw [find?_setAssoc_self paths p (item.2 ++ [(ve, e)]) item hfind, hfind]
      simp only
      rw [List.find?_append]
      cases hfv : item.2.find? (fun q => q.1 = v) with
      | some w => simp
      | none =>
          simp only [Option.none_or]
          rw [List.find?_cons_of_neg _ (by simpa using fun hh => hvv hh.symm)]
          simp
  · rw [if_neg (by simp [hp])]
    unfold lookup2
    rw [find?_setAssoc_other paths pe (item.2 ++ [(ve, e)]) p hp]

end Endpoints

namespace Endpoints

theorem transformEndpointsGo_ok (filt : Option (Endpoint → Bool)) (es : List Endpoint) :
    ∀ paths m, transformEndpointsGo filt paths es = .ok m →
      (∀ p v, lookup2 m p v = (lookup2 paths p v).or
        ((es.filter (passes filt)).find?
          (fun e => decide (transformEndpoint e = (p, v))))) ∧
      (∀ e ∈ es.filter (passes filt),
        lookup2 paths (transformEndpoint e).1 (transformEndpoint e).2 = none) ∧
      List.Pairwise (fun a b => transformEndpoint a ≠ transformEndpoint b)
        (es.filter (passes filt)) := by
  induction es with
  | nil =>
      intro paths m h
      simp only [transformEndpointsGo] at h
      injection h with h
      subst h
      exact ⟨fun p v => by simp, by simp, by simp⟩
  | cons e rest ih =>
      intro paths m h
      simp only [transformEndpointsGo] at h
      by_cases hpass : passes filt e
      · rw [if_pos hpass] at h
        have hfe : (e :: rest).filter (passes filt) = e :: rest.filter (passes filt) := by
          simp [List.filter_cons, hpass]
        cases hfind : paths.find? (fun q => q.1 = (transformEndpoint e).1) with
        | none =>
            rw [hfind] at h
            dsimp only at h
            obtain ⟨ihl, ihf, ihp⟩ := ih _ m h
            have hupd := lookup2_append_new paths (transformEndpoint e).1
              (transformEndpoint e).2 e hfind
            have hselfnone : lookup2 paths (transformEndpoint e).1
                (transformEndpoint e).2 = none := by
              unfold lookup2
              rw [hfind]
            have hdisj : ∀ e2 ∈ rest.filter (passes filt),
                transformEndpoint e ≠ transformEndpoint e2 := by
              intro e2 he2 hcontra
              have h2 := ihf e2 he2
              rw [hupd] at h2
              rw [← hcontra, if_pos ⟨rfl, rfl⟩] at h2
              exact absurd h2 (by simp)
            refine ⟨?_, ?_, ?_⟩
            · intro p v
              rw [ihl p v, hupd p v, hfe]
              by_cases hpv : transformEndpoint e = (p, v)
              · have h1 : p = (transformEndpoint e).1 ∧ v = (transformEndpoint e).2 := by
                  rw [hpv]
                  exact ⟨rfl, rfl⟩
                have h0 : lookup2 paths p v = none := by
                  rw [h1.1, h1.2]
                  exact hselfnone
                rw [if_pos h1, h0, List.find?_cons_of_pos _ (by simpa using hpv)]
                simp
              · rw [if_neg (by rintro ⟨h1, h2⟩; apply hpv; rw [h1, h2]),
                  List.find?_cons_of_neg _ (by simpa using hpv)]
            · rw [hfe]
              intro e2 he2
              rcases List.mem_cons.mp he2 with rfl | he2
              · exact hselfnone
              · have h2 := ihf e2 he2
                rw [hupd] at h2
                split at h2
                · exact absurd h2 (by simp)
                · exact h2
            · rw [hfe, List.pairwise_cons]
              exact ⟨hdisj, ihp⟩
        | some item =>
            cases hfv : item.2.find? (fun q => q.1 = (transformEndpoint e).2) with
            | none =>
                rw [hfind] at h
                dsimp only at h
                rw [hfv] at h
                dsimp only at h
                obtain ⟨ihl, ihf, ihp⟩ := ih _ m h
                have hupd := lookup2_setAssoc paths (transformEndpoint e).1
                  (transformEndpoint e).2 e item hfind hfv
                have hselfnone : lookup2 paths (transformEndpoint e).1
                    (transformEndpoint e).2 = none := by
                  unfold lookup2
                  rw [hfind]
                  dsimp only
                  rw [hfv]
                  rfl
                have hdisj : ∀ e2 ∈ rest.filter (passes filt),
                    transformEndpoint e ≠ transformEndpoint e2 := by
                  intro e2 he2 hcontra
                  have h2 := ihf e2 he2
                  rw [hupd] at h2
                  rw [← hcontra, if_pos ⟨rfl, rfl⟩] at h2
                  exact absurd h2 (by simp)
                refine ⟨?_, ?_, ?_⟩
                · intro p v
                  rw [ihl p v, hupd p v, hfe]
                  by_cases hpv : transformEndpoint e = (p, v)
                  · have h1 : p = (transformEndpoint e).1 ∧ v = (transformEndpoint e).2 := by
                      rw [hpv]
                      exact ⟨rfl, rfl⟩
                    have h0 : lookup2 paths p v = none := by
                      rw [h1.1, h1.2]
                      exact hselfnone
                    rw [if_pos h1, h0, List.find?_cons_of_pos _ (by simpa using hpv)]
                    simp
                  · rw [if_neg (by rintro ⟨h1, h2⟩; apply hpv; rw [h1, h2]),
                      List.find?_cons_of_neg _ (by simpa using hpv)]
                · rw [hfe]
                  intro e2 he2
                  rcases List.mem_cons.mp he2 with rfl | he2
                  · exact hselfnone
                  · have h2 := ihf e2 he2
                    rw [hupd] at h2
                    split at h2
                    · exact absurd h2 (by simp)
                    · exact h2
                · rw [hfe, List.pairwise_cons]
                  exact ⟨hdisj, ihp⟩
            | some w =>
                rw [hfind] at h
                dsimp only at h
                rw [hfv] at h
                dsimp only at h
                exact absurd h (by simp)
      · rw [if_neg hpass] at h
        have hfe : (e :: rest).filter (passes filt) = rest.filter (passes filt) := by
          simp [List.filter_cons, hpass]
        rw [hfe]
        exact ih paths m h

end Endpoints

namespace Endpoints

/-- Claim C9: transformEndpoints records at most one Operation per
(path, HTTP method) combination: a successful run forces all
non-filtered endpoints to have pairwise distinct (path, method) pairs
and records for each combination the operation of the first matching
endpoint (never silently overwriting it), and whenever two
non-filtered endpoints share a (path, method) pair the function raises
a hard error instead of returning a paths object. -/
theorem transformEndpoints_no_duplicates :
    (∀ (filt : Option (Endpoint → Bool)) (es : List Endpoint) m,
      transformEndpoints filt es = .ok m →
      List.Pairwise (fun a b => transformEndpoint a ≠ transformEndpoint b)
        (es.filter (passes filt)) ∧
      (∀ p v, lookup2 m p v =
        (es.filter (passes filt)).find?
          (fun e => decide (transformEndpoint e = (p, v))))) ∧
    (∀ (filt : Option (Endpoint → Bool)) (es : List Endpoint),
      ¬ List.Pairwise (fun a b => transformEndpoint a ≠ transformEndpoint b)
        (es.filter (passes filt)) →
      ∀ m, transformEndpoints filt es ≠ .ok m) := by
  have hmain : ∀ (filt : Option (Endpoint → Bool)) (es : List Endpoint) m,
      transformEndpoints filt es = .ok m →
      List.Pairwise (fun a b => transformEndpoint a ≠ transformEndpoint b)
        (es.filter (passes filt)) ∧
      (∀ p v, lookup2 m p v =
        (es.filter (passes filt)).find?
          (fun e => decide (transformEndpoint e = (p, v)))) := by
    intro filt es m h
    obtain ⟨hl, _, hp⟩ := transformEndpointsGo_ok filt es [] m h
    refine ⟨hp, ?_⟩
    intro p v
    rw [hl p v]
    simp [lookup2]
  exact ⟨hmain, fun filt es hnp m hok => hnp (hmain filt es m hok).1⟩

/-- Witness for C9: two identical unfiltered endpoints make
transformEndpoints fail. -/
theorem transformEndpoints_no_duplicates_witness :
    transformEndpoints none [⟨"/base", "/p", "get"⟩, ⟨"/base", "/p", "get"⟩] ≠ .ok [] :=
  transformEndpoints_no_duplicates.2 none
    [⟨"/base", "/p", "get"⟩, ⟨"/base", "/p", "get"⟩]
    (by simp [List.pairwise_cons, passes]) []

end Endpoints

namespace ErrResp

theorem findRef_none (response : JsVal) : ∀ (names : List String) (i : Nat),
    (∀ name ∈ names, ∃ named, componentsResponses.find? (fun q => q.1 = name) = some named ∧
      isResponseEqual response named.2 = false) →
    isResponseEqual response genericObjectResponse = false →
    findRef response names i = .ok none := by
  intro names
  induction names with
  | nil => intro i _ _; rfl
  | cons name rest ih =>
      intro i hnames hgen
      obtain ⟨named, hfind, hne⟩ := hnames name (by simp)
      simp only [findRef, hfind]
      rw [if_neg (by simp [hne, hgen])]
      exact ih (i + 1) (fun n hn => hnames n (by simp [hn])) hgen

theorem lookupAssoc_setAssoc_other (acc : List (String × JsVal)) (c : String)
    (x : JsVal) (k : String) (hk : k ≠ c) :
    lookupAssoc (setAssoc acc c x) k = lookupAssoc acc k := by
  unfold lookupAssoc
  rw [Endpoints.find?_setAssoc_other acc c x k hk]

theorem transformResponsesGo_preserves : ∀ (l acc out : List (String × JsVal)),
    transformResponsesGo acc l = .ok out → ∀ k : String,
    (∀ r, (k, r) ∈ l →
      codeToResponseNames.find? (fun q => q.1 = k) = none ∨
      (∃ names, codeToResponseNames.find? (fun q => q.1 = k) = some names ∧
        findRef r names.2 0 = .ok none)) →
    lookupAssoc out k = lookupAssoc acc k := by
  intro l
  induction l with
  | nil =>
      intro acc out h k _
      simp only [transformResponsesGo] at h
      injection h with h
      rw [h]
  | cons p rest ih =>
      intro acc out h k hcond
      obtain ⟨c, r⟩ := p
      simp only [transformResponsesGo] at h
      by_cases hck : c = k
      · subst hck
        rcases hcond r (by simp) with hnone | ⟨names, hsome, href⟩
        · rw [hnone] at h
          try dsimp only at h
          exact ih acc out h c (fun r2 h2 => hcond r2 (by simp [h2]))
        · rw [hsome] at h
          try dsimp only at h
          rw [href] at h
          try dsimp only at h
          exact ih acc out h c (fun r2 h2 => hcond r2 (by simp [h2]))
      · cases htab : codeToResponseNames.find? (fun q => q.1 = c) with
        | none =>
            rw [htab] at h
            try dsimp only at h
            exact ih acc out h k (fun r2 h2 => hcond r2 (by simp [h2]))
        | some names =>
            rw [htab] at h
            try dsimp only at h
            cases href : findRef r names.2 0 with
            | error e => rw [href] at h; try dsimp only at h; exact absurd h (by simp)
            | ok oref =>
                rw [href] at h
                try dsimp only at h
                cases oref with
                | none => exact ih acc out h k (fun r2 h2 => hcond r2 (by simp [h2]))
                | some ref =>
                    rw [ih (setAssoc acc c ref) out h k
                      (fun r2 h2 => hcond r2 (by simp [h2]))]
                    exact lookupAssoc_setAssoc_other acc c ref k (fun hh => hck hh.symm)

theorem lookupAssoc_spreadMerge_absent (a b : List (String × JsVal)) (k : String)
    (hb : lookupAssoc b k = none) :
    lookupAssoc (spreadMerge a b) k = lookupAssoc a k := by
  unfold spreadMerge lookupAssoc
  rw [List.find?_append]
  unfold lookupAssoc at hb
  cases hfb : b.find? (fun q => q.1 = k) with
  | some w => rw [hfb] at hb; simp at hb
  | none =>
      induction a with
      | nil => simp
      | cons p resta ih =>
          rw [List.filter_cons]
          by_cases hp : b.any (fun q => q.1 = p.1)
          · rw [if_neg (by simp [hp])]
            have hpk : ¬ (p.1 = k) := by
              intro hh
              rw [List.any_eq_true] at hp
              obtain ⟨q, hq, hq2⟩ := hp
              have := List.find?_eq_none.mp hfb q hq
              simp only [decide_eq_true_eq] at hq2 this
              exact this (by rw [hq2, hh])
            rw [List.find?_cons_of_neg _ (by simpa using hpk)]
            exact ih
          · have hpf : (b.any fun q => decide (q.1 = p.1)) = false :=
              Bool.eq_false_iff.mpr hp
            rw [if_pos (by simp [hpf])]
            by_cases hpk : p.1 = k
            · rw [List.find?_cons_of_pos _ (by simpa using hpk),
                List.find?_cons_of_pos _ (by simpa using hpk)]
              simp
            · rw [List.find?_cons_of_neg _ (by simpa using hpk),
                List.find?_cons_of_neg _ (by simpa using hpk)]
              exact ih

theorem lookupAssoc_spreadMerge_present (a b : List (String × JsVal)) (k : String)
    (r : JsVal) (hb : lookupAssoc b k = some r) :
    lookupAssoc (spreadMerge a b) k = some r := by
  unfold spreadMerge lookupAssoc
  rw [List.find?_append]
  have hfiltered : (a.filter (fun p => ¬ b.any (fun q => q.1 = p.1))).find?
      (fun q => q.1 = k) = none := by
    rw [List.find?_eq_none]
    intro p hp hpk
    simp only [decide_eq_true_eq] at hpk
    rw [List.mem_filter] at hp
    have hp2 : (b.any fun q => decide (q.1 = p.1)) = false := by
      have h3 := hp.2
      simp only [decide_not, Bool.not_eq_true'] at h3
      rw [decide_eq_false_iff_not] at h3
      exact Bool.eq_false_iff.mpr h3
    cases hfb : b.find? (fun q => q.1 = k) with
    | none =>
        unfold lookupAssoc at hb
        rw [hfb] at hb
        simp at hb
    | some w =>
        have hw := List.mem_of_find?_eq_some hfb
        have hw2 : w.1 = k := by simpa using List.find?_some hfb
        rw [List.any_eq_false] at hp2
        have h4 := hp2 w hw
        simp only [decide_eq_true_eq] at h4
        exact h4 (by rw [hw2, hpk])
  rw [hfiltered]
  unfold lookupAssoc at hb
  simpa using hb

theorem lookupAssoc_of_mem_nodup : ∀ (l : List (String × JsVal)) (k : String) (r : JsVal),
    (l.map Prod.fst).Nodup → (k, r) ∈ l → lookupAssoc l k = some r := by
  intro l
  induction l with
  | nil => intro k r _ h; simp at h
  | cons p rest ih =>
      intro k r hnd hmem
      rw [List.map_cons, List.nodup_cons] at hnd
      rcases List.mem_cons.mp hmem with rfl | hmem
      · unfold lookupAssoc
        rw [List.find?_cons_of_pos _ (by simp)]
        rfl
      · have hpk : ¬ (p.1 = k) := by
          intro hh
          exact hnd.1 (hh ▸ List.mem_map.mpr ⟨(k, r), hmem, hh ▸ rfl⟩)
        unfold lookupAssoc
        rw [List.find?_cons_of_neg _ (by simpa using hpk)]
        exact ih k r hnd.2 hmem

theorem lookupAssoc_eq_some_mem (l : List (String × JsVal)) (k : String) (r : JsVal)
    (h : lookupAssoc l k = some r) : (k, r) ∈ l := by
  unfold lookupAssoc at h
  cases hf : l.find? (fun q => q.1 = k) with
  | none => rw [hf] at h; exact absurd h (by simp)
  | some q =>
      rw [hf] at h
      have hq := List.mem_of_find?_eq_some hf
      have hq1 : q.1 = k := by simpa using List.find?_some hf
      simp only [Option.map_some'] at h
      injection h with h
      have : q = (k, r) := by
        cases q
        simp_all
      rw [← this]
      exact hq

/-- Claim C6 (amended): for every responses mapping (unique status-code
keys, successful run), the error-response normalization produces a
mapping that contains the catalogued $ref entries for status codes 429,
500, 502 and 503 whenever those codes were absent, and leaves a present
response entry for any code in place unless it structurally matches the
catalogued response for that code ignoring descriptions or it
structurally matches the generic object response (in which cases it is
replaced by a $ref). -/
theorem transformResponses_spec :
    ∀ responses out, (responses.map Prod.fst).Nodup →
      transformResponses responses = .ok out →
      (∀ code ∈ ["429", "500", "502", "503"], lookupAssoc responses code = none →
        lookupAssoc out code = lookupAssoc ubiquitousResponses code) ∧
      (∀ code response, lookupAssoc responses code = some response →
        (∀ name ∈ (codeToResponseNames.find? (fun q => q.1 = code)).elim [] Prod.snd,
          ∃ named, componentsResponses.find? (fun q => q.1 = name) = some named ∧
            isResponseEqual response named.2 = false) →
        isResponseEqual response genericObjectResponse = false →
        lookupAssoc out code = some response) := by
  intro responses out hnd h
  unfold transformResponses at h
  constructor
  · intro code hcode habsent
    have hpres := transformResponsesGo_preserves responses _ out h code ?_
    · rw [hpres]
      exact lookupAssoc_spreadMerge_absent ubiquitousResponses responses code habsent
    · intro r hr
      exfalso
      have := lookupAssoc_of_mem_nodup responses code r hnd hr
      rw [habsent] at this
      exact absurd this (by simp)
  · intro code response hpresent hnomatch hgen
    have hpres := transformResponsesGo_preserves responses _ out h code ?_
    · rw [hpres]
      exact lookupAssoc_spreadMerge_present ubiquitousResponses responses code response hpresent
    · intro r hr
      have hre : r = response := by
        have := lookupAssoc_of_mem_nodup responses code r hnd hr
        rw [hpresent] at this
        injection this with this
        exact this.symm
      subst hre
      cases htab : codeToResponseNames.find? (fun q => q.1 = code) with
      | none => exact Or.inl rfl
      | some names =>
          refine Or.inr ⟨names, rfl, ?_⟩
          refine findRef_none r names.2 0 ?_ hgen
          intro name hname
          exact hnomatch name (by rw [htab]; simpa using hname)

/-- Claim C6 counterexample: a 429 response equal to the generic object
response does not structurally match the catalogued LimitExceeded
response ignoring descriptions, yet transformResponses replaces it by
the $ref instead of leaving it in place as the claim states. -/
theorem transformResponses_generic_429_replaced :
    isResponseEqual genericObjectResponse
      ((componentsResponses.find? (fun q => q.1 = "LimitExceeded")).elim JsVal.null Prod.snd)
        = false ∧
    transformResponses [("429", genericObjectResponse)] =
      .ok [("500", JsVal.obj [("$ref", JsVal.str "#/components/responses/InternalServerError")]),
        ("502", JsVal.obj [("$ref", JsVal.str "#/components/responses/GatewayError")]),
        ("503", JsVal.obj [("$ref", JsVal.str "#/components/responses/ServiceUnavailable")]),
        ("429", JsVal.obj [("$ref", JsVal.str "#/components/responses/LimitExceeded")])] ∧
    JsVal.beq (JsVal.obj [("$ref", JsVal.str "#/components/responses/LimitExceeded")])
      genericObjectResponse = false := by
  refine ⟨rfl, rfl, rfl⟩

/-- Witness for C6 at a concrete responses map with one 200 response. -/
theorem transformResponses_spec_witness :
    lookupAssoc [("429", JsVal.obj [("$ref", JsVal.str "#/components/responses/LimitExceeded")]),
        ("500", JsVal.obj [("$ref", JsVal.str "#/components/responses/InternalServerError")]),
        ("502", JsVal.obj [("$ref", JsVal.str "#/components/responses/GatewayError")]),
        ("503", JsVal.obj [("$ref", JsVal.str "#/components/responses/ServiceUnavailable")]),
        ("200", JsVal.obj [("description", JsVal.str "OK")])]
      "429" = lookupAssoc ubiquitousResponses "429" ∧
    lookupAssoc [("429", JsVal.obj [("$ref", JsVal.str "#/components/responses/LimitExceeded")]),
        ("500", JsVal.obj [("$ref", JsVal.str "#/components/responses/InternalServerError")]),
        ("502", JsVal.obj [("$ref", JsVal.str "#/components/responses/GatewayError")]),
        ("503", JsVal.obj [("$ref", JsVal.str "#/components/responses/ServiceUnavailable")]),
        ("200", JsVal.obj [("description", JsVal.str "OK")])]
      "200" = some (JsVal.obj [("description", JsVal.str "OK")]) := by
  have hrun : transformResponses [("200", JsVal.obj [("description", JsVal.str "OK")])] =
      .ok [("429", JsVal.obj [("$ref", JsVal.str "#/components/responses/LimitExceeded")]),
        ("500", JsVal.obj [("$ref", JsVal.str "#/components/responses/InternalServerError")]),
        ("502", JsVal.obj [("$ref", JsVal.str "#/components/responses/GatewayError")]),
        ("503", JsVal.obj [("$ref", JsVal.str "#/components/responses/ServiceUnavailable")]),
        ("200", JsVal.obj [("description", JsVal.str "OK")])] := rfl
  have hs := transformResponses_spec [("200", JsVal.obj [("description", JsVal.str "OK")])]
    _ (by decide) hrun
  refine ⟨hs.1 "429" (by decide) rfl, hs.2 "200" (JsVal.obj [("description", JsVal.str "OK")]) rfl
    ?_ rfl⟩
  intro name hname
  rw [show codeToResponseNames.find? (fun q => q.1 = "200") = none from rfl] at hname
  simp at hname

end ErrResp

namespace To30

theorem beq_str_iff (v : JsVal) (s : String) :
    JsVal.beq v (.str s) = true ↔ v = .str s := by
  cases v <;> simp [JsVal.beq]

theorem two_mem_le_length (l : List JsVal) (a b : JsVal) (hab : a ≠ b)
    (ha : a ∈ l) (hb : b ∈ l) : 2 ≤ l.length := by
  induction l with
  | nil => simp at ha
  | cons x rest ih =>
      by_cases hax : a = x
      · subst hax
        have hbr : b ∈ rest := by
          rcases List.mem_cons.mp hb with h | h
          · exact absurd h.symm hab
          · exact h
        have := List.length_pos.mpr (List.ne_nil_of_mem hbr)
        simp only [List.length_cons]
        omega
      · have har : a ∈ rest := by
          rcases List.mem_cons.mp ha with h | h
          · exact absurd h hax
          · exact h
        by_cases hbx : b = x
        · have := List.length_pos.mpr (List.ne_nil_of_mem har)
          simp only [List.length_cons]
          omega
        · have hbr : b ∈ rest := by
            rcases List.mem_cons.mp hb with h | h
            · exact absurd h hbx
            · exact h
          have := ih har hbr
          simp only [List.length_cons]
          omega

theorem three_mem_le_length (l : List JsVal) (a b c : JsVal) (hab : a ≠ b)
    (hac : a ≠ c) (hbc : b ≠ c) (ha : a ∈ l) (hb : b ∈ l) (hc : c ∈ l) :
    3 ≤ l.length := by
  induction l with
  | nil => simp at ha
  | cons x rest ih =>
      by_cases hax : a = x
      · subst hax
        have hbr : b ∈ rest := by
          rcases List.mem_cons.mp hb with h | h
          · exact absurd h.symm hab
          · exact h
        have hcr : c ∈ rest := by
          rcases List.mem_cons.mp hc with h | h
          · exact absurd h.symm hac
          · exact h
        have := two_mem_le_length rest b c hbc hbr hcr
        simp only [List.length_cons]
        omega
      · have har : a ∈ rest := by
          rcases List.mem_cons.mp ha with h | h
          · exact absurd h hax
          · exact h
        by_cases hbx : b = x
        · subst hbx
          have hcr : c ∈ rest := by
            rcases List.mem_cons.mp hc with h | h
            · exact absurd h.symm hbc
            · exact h
          have := two_mem_le_length rest a c hac har hcr
          simp only [List.length_cons]
          omega
        · have hbr : b ∈ rest := by
            rcases List.mem_cons.mp hb with h | h
            · exact absurd h hbx
            · exact h
          by_cases hcx : c = x
          · have := two_mem_le_length rest a b hab har hbr
            simp only [List.length_cons]
            omega
          · have hcr : c ∈ rest := by
              rcases List.mem_cons.mp hc with h | h
              · exact absurd h hcx
              · exact h
            have := ih har hbr hcr
            simp only [List.length_cons]
            omega

theorem lookupField_setAssoc_hit : ∀ (fields : List (String × JsVal)) (k : String) (x : JsVal),
    fields.any (fun f => f.1 = k) = true →
    JsVal.lookupField (setAssoc fields k x) k = some x := by
  intro fields
  induction fields with
  | nil => intro k x h; simp at h
  | cons g rest ih =>
      intro k x h
      obtain ⟨k2, v2⟩ := g
      by_cases hk2 : k2 = k
      · subst hk2
        unfold setAssoc
        rw [if_pos rfl]
        unfold JsVal.lookupField
        rw [if_pos rfl]
      · unfold setAssoc
        rw [if_neg hk2]
        unfold JsVal.lookupField
        rw [if_neg hk2]
        refine ih k x ?_
        rw [List.any_cons] at h
        simp only [hk2, Bool.false_or] at h
        simpa using h

theorem lookupField_append_miss : ∀ (fields : List (String × JsVal)) (k : String) (x : JsVal),
    fields.any (fun f => f.1 = k) = false →
    JsVal.lookupField (fields ++ [(k, x)]) k = some x := by
  intro fields
  induction fields with
  | nil => intro k x _; simp [JsVal.lookupField]
  | cons g rest ih =>
      intro k x h
      obtain ⟨k2, v2⟩ := g
      rw [List.any_cons] at h
      simp only [Bool.or_eq_false_iff] at h
      rw [List.cons_append]
      unfold JsVal.lookupField
      rw [if_neg (by simpa using h.1)]
      exact ih k x h.2

theorem lookup_setField (v : JsVal) (k : String) (x : JsVal) :
    JsVal.getField (setField v k x) k = some x := by
  cases v with
  | obj fields =>
      unfold setField
      dsimp only
      by_cases hk : fields.any (fun f => f.1 = k)
      · rw [if_pos hk]
        unfold JsVal.getField
        exact lookupField_setAssoc_hit fields k x hk
      · rw [if_neg hk]
        unfold JsVal.getField
        exact lookupField_append_miss fields k x (Bool.eq_false_iff.mpr hk)
  | null => simp [setField, JsVal.getField, JsVal.lookupField]
  | bool b => simp [setField, JsVal.getField, JsVal.lookupField]
  | num n => simp [setField, JsVal.getField, JsVal.lookupField]
  | str s => simp [setField, JsVal.getField, JsVal.lookupField]
  | arr elems => simp [setField, JsVal.getField, JsVal.lookupField]

theorem lookup_filter_ne_type (fields : List (String × JsVal)) :
    JsVal.lookupField (fields.filter (fun f => f.1 ≠ "type")) "type" = none := by
  induction fields with
  | nil => simp [JsVal.lookupField]
  | cons f rest ih =>
      rw [List.filter_cons]
      by_cases hf : f.1 = "type"
      · rw [if_neg (by simp [hf])]
        exact ih
      · rw [if_pos (by simpa using hf)]
        unfold JsVal.lookupField
        cases f with
        | mk k v =>
            simp only at hf
            rw [if_neg hf]
            exact ih

/-- Claim C7: the downgrade pass removes a schema type constraint
exactly when its array form enumerates all primitive scalar types
(boolean, number and string, the scalar types other than array and
object); transformOpenApi applies the transformer pipeline (the
type-removal transformer followed by the general 3.1-to-3.0 structural
transform, both quantified here) and then stamps the openapi field with
the 3.0 version string 3.0.3; the result is the same formula whatever
the input openapi field is, so a document that does not declare 3.1
only draws a warning and never a failure. -/
theorem transformOpenApi31To30_spec :
    (∀ t : Option JsVal, allPrimitiveTypes t = true ↔ typeListsAllPrimitiveScalarTypes t) ∧
    (∀ fields : List (String × JsVal),
      JsVal.getField (removeTypeIf allPrimitiveTypes (.obj fields)) "type" =
        (if allPrimitiveTypes (JsVal.lookupField fields "type") then none
         else JsVal.lookupField fields "type")) ∧
    (∀ (transformers : List (JsVal → JsVal)) (fields : List (String × JsVal)),
      transformOpenApi transformers (.obj fields) =
        setField (transformers.foldl (fun acc t => t acc) (.obj fields))
          "openapi" (.str "3.0.3")) ∧
    (∀ (transformers : List (JsVal → JsVal)) (fields : List (String × JsVal)),
      JsVal.getField (transformOpenApi transformers (.obj fields)) "openapi" =
        some (.str "3.0.3")) := by
  refine ⟨?_, ?_, ?_, ?_⟩
  · intro t
    constructor
    · intro h
      match t, h with
      | some (.arr elems), h =>
          simp only [allPrimitiveTypes, Bool.and_eq_true, List.all_cons, List.all_nil,
            Bool.and_true, List.any_eq_true] at h
          obtain ⟨hlen, ⟨b1, hb1, hbeq1⟩, ⟨b2, hb2, hbeq2⟩, b3, hb3, hbeq3⟩ := h
          rw [beq_str_iff] at hbeq1 hbeq2 hbeq3
          subst hbeq1; subst hbeq2; subst hbeq3
          exact ⟨elems, rfl, hb1, hb2, hb3⟩
    · rintro ⟨elems, rfl, hb, hn, hs⟩
      simp only [allPrimitiveTypes, Bool.and_eq_true, List.all_cons, List.all_nil,
        Bool.and_true, List.any_eq_true]
      refine ⟨?_, ⟨_, hb, by rw [beq_str_iff]⟩, ⟨_, hn, by rw [beq_str_iff]⟩,
        ⟨_, hs, by rw [beq_str_iff]⟩⟩
      simp only [decide_eq_true_eq]
      exact three_mem_le_length elems _ _ _ (by simp) (by simp) (by simp) hb hn hs
  · intro fields
    unfold removeTypeIf
    dsimp only
    by_cases hp : allPrimitiveTypes (JsVal.lookupField fields "type")
    · rw [if_pos hp, if_pos hp]
      unfold JsVal.getField
      exact lookup_filter_ne_type fields
    · rw [if_neg hp, if_neg hp]
      rfl
  · intro transformers fields
    rfl
  · intro transformers fields
    unfold transformOpenApi
    dsimp only
    exact lookup_setField _ "openapi" (.str "3.0.3")

end To30

namespace FmtDesc

theorem lookupField_append_ne (l : List (String × JsVal)) (k k2 : String) (x : JsVal)
    (hne : k2 ≠ k) :
    JsVal.lookupField (l ++ [(k2, x)]) k = JsVal.lookupField l k := by
  induction l with
  | nil => simp [JsVal.lookupField, hne]
  | cons p rest ih =>
      obtain ⟨k3, v3⟩ := p
      rw [List.cons_append]
      unfold JsVal.lookupField
      by_cases h3 : k3 = k
      · rw [if_pos h3, if_pos h3]
      · rw [if_neg h3, if_neg h3]
        exact ih

theorem lookupField_append_self (l : List (String × JsVal)) (k : String) (x : JsVal)
    (hnone : JsVal.lookupField l k = none) :
    JsVal.lookupField (l ++ [(k, x)]) k = some x := by
  induction l with
  | nil => simp [JsVal.lookupField]
  | cons p rest ih =>
      obtain ⟨k3, v3⟩ := p
      rw [List.cons_append]
      unfold JsVal.lookupField at hnone ⊢
      by_cases h3 : k3 = k
      · rw [if_pos h3] at hnone
        exact absurd hnone (by simp)
      · rw [if_neg h3] at hnone
        rw [if_neg h3]
        exact ih hnone

theorem lookupField_fdsBaseFields (fields : List (String × JsVal)) (k : String)
    (hi : k ≠ "items") (hp : k ≠ "properties") :
    JsVal.lookupField (fdsBaseFields fields) k = JsVal.lookupField fields k := by
  induction fields with
  | nil => rfl
  | cons p rest ih =>
      obtain ⟨k2, v2⟩ := p
      unfold fdsBaseFields
      unfold JsVal.lookupField
      by_cases h2 : k2 = k
      · rw [if_pos h2, if_pos h2]
        subst h2
        rw [if_neg hi, if_neg hp]
      · rw [if_neg h2, if_neg h2]
        exact ih

theorem fdsBaseFields_append (a b : List (String × JsVal)) :
    fdsBaseFields (a ++ b) = fdsBaseFields a ++ fdsBaseFields b := by
  induction a with
  | nil => rfl
  | cons p rest ih =>
      obtain ⟨k, v⟩ := p
      rw [List.cons_append]
      simp only [fdsBaseFields]
      rw [ih, List.cons_append]

theorem fdsFormat_cases (name : Option String) (fields : List (String × JsVal)) :
    fdsFormat name (.obj fields) = .obj fields ∨
    ∃ f, JsVal.lookupField fields "format" = none ∧
      fdsFormat name (.obj fields) = .obj (fields ++ [("format", .str f)]) := by
  unfold fdsFormat
  dsimp only
  by_cases hc : isStringType fields && (JsVal.lookupField fields "format").isNone
  · rw [if_pos hc]
    cases hinf : inferFormat name (descriptionOf fields) with
    | none => exact Or.inl rfl
    | some f =>
        refine Or.inr ⟨f, ?_, rfl⟩
        have := (Bool.and_eq_true _ _).mp hc
        cases hfmt : JsVal.lookupField fields "format" with
        | none => rfl
        | some w => rw [hfmt] at this; simp at this
  · rw [if_neg hc]
    exact Or.inl rfl

theorem fdsFormat_of_format_some (name : Option String)
    (fields : List (String × JsVal)) (fv : JsVal)
    (hfmt : JsVal.lookupField fields "format" = some fv) :
    fdsFormat name (.obj fields) = .obj fields := by
  unfold fdsFormat
  dsimp only
  rw [if_neg]
  rw [hfmt]
  simp

mutual

theorem fds_idem : ∀ (name : Option String) (v : JsVal),
    fdsTransformSchema name (fdsTransformSchema name v) = fdsTransformSchema name v
  | name, .obj fields => by
      have hb := fdsBaseFields_idem fields
      show fdsTransformSchema name (fdsFormat name (.obj (fdsBaseFields fields))) =
        fdsFormat name (.obj (fdsBaseFields fields))
      rcases fdsFormat_cases name (fdsBaseFields fields) with hA | ⟨f, hfmt, hB⟩
      · rw [hA]
        show fdsFormat name (.obj (fdsBaseFields (fdsBaseFields fields))) = _
        rw [hb, hA]
      · rw [hB]
        show fdsFormat name
            (.obj (fdsBaseFields (fdsBaseFields fields ++ [("format", .str f)]))) = _
        rw [fdsBaseFields_append, hb]
        have hunit : fdsBaseFields [("format", .str f)] = [("format", .str f)] := rfl
        rw [hunit]
        refine fdsFormat_of_format_some name _ (.str f) ?_
        exact lookupField_append_self (fdsBaseFields fields) "format" (.str f) hfmt
  | name, .null => rfl
  | name, .bool b => rfl
  | name, .num n => rfl
  | name, .str s => rfl
  | name, .arr elems => rfl

theorem fdsBaseFields_idem : ∀ fields : List (String × JsVal),
    fdsBaseFields (fdsBaseFields fields) = fdsBaseFields fields
  | [] => rfl
  | (k, v) :: rest => by
      show (k, if k = "items" then
              fdsTransformSchema none (if k = "items" then fdsTransformSchema none v
                else if k = "properties" then fdsProperties v else v)
            else if k = "properties" then
              fdsProperties (if k = "items" then fdsTransformSchema none v
                else if k = "properties" then fdsProperties v else v)
            else (if k = "items" then fdsTransformSchema none v
              else if k = "properties" then fdsProperties v else v)) ::
          fdsBaseFields (fdsBaseFields rest) =
        (k, if k = "items" then fdsTransformSchema none v
            else if k = "properties" then fdsProperties v else v) :: fdsBaseFields rest
      rw [fdsBaseFields_idem rest]
      congr 2
      by_cases hi : k = "items"
      · simp only [hi]
        simp
        exact fds_idem none v
      · by_cases hp : k = "properties"
        · simp only [hp]
          simp
          exact fdsProperties_idem v
        · simp only [if_neg hi, if_neg hp]

theorem fdsProperties_idem : ∀ v : JsVal, fdsProperties (fdsProperties v) = fdsProperties v
  | .obj props => by
      show JsVal.obj (fdsPropertiesList (fdsPropertiesList props)) =
        JsVal.obj (fdsPropertiesList props)
      rw [fdsPropertiesList_idem props]
  | .null => rfl
  | .bool b => rfl
  | .num n => rfl
  | .str s => rfl
  | .arr elems => rfl

theorem fdsPropertiesList_idem : ∀ props : List (String × JsVal),
    fdsPropertiesList (fdsPropertiesList props) = fdsPropertiesList props
  | [] => rfl
  | (k, v) :: rest => by
      show (k, fdsTransformSchema (some k) (fdsTransformSchema (some k) v)) ::
          fdsPropertiesList (fdsPropertiesList rest) =
        (k, fdsTransformSchema (some k) v) :: fdsPropertiesList rest
      rw [fds_idem (some k) v, fdsPropertiesList_idem rest]

end

end FmtDesc

namespace FmtDesc

/-- Claim C5: the format-inference pass is idempotent: applying
transformSchema twice (same name context) equals applying it once,
because a string schema that already has a format, including one added
by the first application, is returned unchanged; a present format is
never overwritten; and apart from the recursively transformed child
keywords the only own field the pass may change is format, which it
only adds. -/
theorem formatFromDescription_spec :
    (∀ (name : Option String) (v : JsVal),
      fdsTransformSchema name (fdsTransformSchema name v) = fdsTransformSchema name v) ∧
    (∀ (name : Option String) (v : JsVal) (fv : JsVal),
      JsVal.getField v "format" = some fv →
        JsVal.getField (fdsTransformSchema name v) "format" = some fv) ∧
    (∀ (name : Option String) (v : JsVal) (k : String),
      k ≠ "items" → k ≠ "properties" → k ≠ "format" →
        JsVal.getField (fdsTransformSchema name v) k = JsVal.getField v k) := by
  refine ⟨fds_idem, ?_, ?_⟩
  · intro name v fv hfmt
    cases v with
    | obj fields =>
        show JsVal.getField (fdsFormat name (.obj (fdsBaseFields fields))) "format" = some fv
        have hb : JsVal.lookupField (fdsBaseFields fields) "format" = some fv := by
          rw [lookupField_fdsBaseFields fields "format" (by decide) (by decide)]
          exact hfmt
        rw [fdsFormat_of_format_some name _ fv hb]
        exact hb
    | null => exact absurd hfmt (by simp [JsVal.getField])
    | bool b => exact absurd hfmt (by simp [JsVal.getField])
    | num n => exact absurd hfmt (by simp [JsVal.getField])
    | str s => exact absurd hfmt (by simp [JsVal.getField])
    | arr elems => exact absurd hfmt (by simp [JsVal.getField])
  · intro name v k hi hp hf
    cases v with
    | obj fields =>
        show JsVal.getField (fdsFormat name (.obj (fdsBaseFields fields))) k =
          JsVal.lookupField fields k
        rcases fdsFormat_cases name (fdsBaseFields fields) with hA | ⟨f, hfmt, hB⟩
        · rw [hA]
          show JsVal.lookupField (fdsBaseFields fields) k = _
          exact lookupField_fdsBaseFields fields k hi hp
        · rw [hB]
          show JsVal.lookupField (fdsBaseFields fields ++ [("format", .str f)]) k = _
          rw [lookupField_append_ne _ _ _ _ (fun hh => hf hh.symm)]
          exact lookupField_fdsBaseFields fields k hi hp
    | null => rfl
    | bool b => rfl
    | num n => rfl
    | str s => rfl
    | arr elems => rfl

/-- Witness for C5: a schema with an existing format keeps it. -/
theorem formatFromDescription_spec_witness :
    JsVal.getField
      (fdsTransformSchema none
        (JsVal.obj [("type", JsVal.str "string"), ("format", JsVal.str "uuid"),
          ("description", JsVal.str "a datetime value")]))
      "format" = some (JsVal.str "uuid") :=
  formatFromDescription_spec.2.1 none
    (JsVal.obj [("type", JsVal.str "string"), ("format", JsVal.str "uuid"),
      ("description", JsVal.str "a datetime value")])
    (JsVal.str "uuid") rfl

end FmtDesc

namespace BodyParams

theorem step_badIndent (st : BPState) (p : BodyParam)
    (h : p.indentation < 2 ∨ p.indentation % 2 ≠ 0) :
    transformBodyParamsStep st p =
      .error "indentation is not a multiple of indentIncrement" := by
  simp only [transformBodyParamsStep, if_pos h]

theorem gapFixState_eq_self (st : BPState) (depth : Nat)
    (h : ¬ gapTolerated st depth) : gapFixState st depth = st := by
  unfold gapFixState
  by_cases h1 : 2 < depth ∧ depth - 1 = st.schemaForDepth.length
  · rw [if_pos h1]
    cases hg : st.schemaForDepth[depth - 2]? with
    | none => rfl
    | some gid =>
        dsimp only
        cases hh : st.heap[gid]? with
        | none => rfl
        | some gnode =>
            dsimp only
            rw [if_neg]
            intro hc
            exact h ⟨h1.1, h1.2, gid, gnode, hg, hh, hc.1, hc.2⟩
  · rw [if_neg h1]

theorem step_noParent (st : BPState) (p : BodyParam)
    (h : ¬ (p.indentation < 2 ∨ p.indentation % 2 ≠ 0))
    (hnone : st.schemaForDepth[(p.indentation / 2).toNat - 1]? = none)
    (hgap : ¬ gapTolerated st (p.indentation / 2).toNat) :
    transformBodyParamsStep st p = .error "param has no parent at indent" := by
  simp only [transformBodyParamsStep, if_neg h, gapFixState_eq_self st _ hgap, hnone]


theorem gapFixState_fires (st : BPState) (depth gid : Nat) (gnode : SchemaNode)
    (h1 : 2 < depth) (h2 : depth - 1 = st.schemaForDepth.length)
    (hg : st.schemaForDepth[depth - 2]? = some gid)
    (hh : st.heap[gid]? = some gnode)
    (ha : gnode.stype = some "array") (hi : gnode.items = none) :
    gapFixState st depth =
      { heap := (st.heap ++ [({ stype := some "array" } : SchemaNode)]).set gid
                  { gnode with items := some st.heap.length },
        schemaForDepth := st.schemaForDepth ++ [st.heap.length] } := by
  unfold gapFixState
  rw [if_pos ⟨h1, h2⟩, hg]
  dsimp only
  rw [hh]
  dsimp only
  rw [if_pos ⟨ha, hi⟩]

theorem requiredPush_set (heap : List SchemaNode) (poid : Nat) (po : SchemaNode)
    (nm : String) (hpo : heap[poid]? = some po) :
    requiredPush heap poid nm =
      heap.set poid { po with required := some (po.required.getD [] ++ [nm]) } := by
  unfold requiredPush
  rw [hpo]

theorem addProperty_ok (heap : List SchemaNode) (poid : Nat) (po : SchemaNode)
    (nm : String) (sid : Nat) (req : Bool)
    (hpo : heap[poid]? = some po)
    (hprops : po.properties = none) (hpats : po.patternProperties = none) :
    ∃ heap3, addProperty heap poid nm sid req = .ok heap3 ∧
      ∀ j, j ≠ poid → heap3[j]? = heap[j]? := by
  have hlt : poid < heap.length := (List.getElem?_eq_some.mp hpo).1
  unfold addProperty
  rw [hpo]
  dsimp only
  by_cases hpn : isPlainName nm = true
  · rw [if_pos hpn, hprops]
    simp only [Option.getD_none, List.any_nil]
    rw [if_neg (by simp)]
    refine ⟨_, rfl, ?_⟩
    intro j hj
    cases req with
    | false =>
        simp only [Bool.false_eq_true, if_false]
        exact List.getElem?_set_ne (fun he => hj he.symm)
    | true =>
        simp only [if_true]
        rw [requiredPush_set _ _ _ nm (List.getElem?_set_self hlt)]
        rw [List.getElem?_set_ne (fun he => hj he.symm)]
        exact List.getElem?_set_ne (fun he => hj he.symm)
  · rw [if_neg hpn, hpats]
    simp only [Option.getD_none, List.any_nil]
    rw [if_neg (by simp)]
    refine ⟨_, rfl, ?_⟩
    intro j hj
    cases req with
    | false =>
        simp only [Bool.false_eq_true, if_false]
        exact List.getElem?_set_ne (fun he => hj he.symm)
    | true =>
        simp only [if_true]
        rw [requiredPush_set _ _ _ nm (List.getElem?_set_self hlt)]
        rw [List.getElem?_set_ne (fun he => hj he.symm)]
        exact List.getElem?_set_ne (fun he => hj he.symm)

theorem step_gapFix (st : BPState) (p : BodyParam) (gid : Nat) (gnode : SchemaNode)
    (h : ¬ (p.indentation < 2 ∨ p.indentation % 2 ≠ 0))
    (h1 : 2 < (p.indentation / 2).toNat)
    (h2 : (p.indentation / 2).toNat - 1 = st.schemaForDepth.length)
    (hg : st.schemaForDepth[(p.indentation / 2).toNat - 2]? = some gid)
    (hh : st.heap[gid]? = some gnode)
    (ha : gnode.stype = some "array") (hi : gnode.items = none) :
    ∃ st', transformBodyParamsStep st p = .ok st' ∧
      st'.heap[gid]? = some { gnode with items := some st.heap.length } ∧
      ∃ wnode, st'.heap[st.heap.length]? = some wnode ∧
        wnode.stype = some "array" := by
  have hgidlt : gid < st.heap.length := (List.getElem?_eq_some.mp hh).1
  simp only [transformBodyParamsStep, if_neg h]
  rw [gapFixState_fires st _ gid gnode h1 h2 hg hh ha hi]
  dsimp only
  rw [h2, List.getElem?_concat_length]
  dsimp only
  set H1 : List SchemaNode :=
    (st.heap ++ [({ stype := some "array" } : SchemaNode)]).set gid
      { gnode with items := some st.heap.length } with hH1
  have hH1len : H1.length = st.heap.length + 1 := by
    rw [hH1]; simp [List.length_set]
  have hwl : H1[st.heap.length]? = some ({ stype := some "array" } : SchemaNode) := by
    rw [hH1, List.getElem?_set_ne (Nat.ne_of_lt hgidlt), List.getElem?_concat_length]
  have hH1gid : H1[gid]? = some { gnode with items := some st.heap.length } := by
    rw [hH1]
    exact List.getElem?_set_self (by simp; omega)
  rw [hwl]
  try dsimp only
  cases hfn : isFalsyName p.name with
  | true =>
      rw [if_pos ⟨rfl, rfl⟩]
      try dsimp only
      refine ⟨_, rfl, ?_, ?_⟩
      · rw [List.getElem?_set_ne (Nat.ne_of_gt hgidlt),
          List.getElem?_append_left (by omega), hH1gid]
      · refine ⟨_, List.getElem?_set_self (by simp [hH1len]; omega), rfl⟩
  | false =>
      rw [if_neg (fun hc => Bool.false_ne_true hc.2)]
      set heap1 : List SchemaNode := H1 ++ [({ stype := p.ptype } : SchemaNode)] with hheap1
      have hheap1len : heap1.length = st.heap.length + 2 := by
        rw [hheap1]; simp [hH1len]
      have hres : resolveParentObject heap1 st.heap.length
          ({ stype := some "array" } : SchemaNode) =
          .ok ((heap1 ++ [({ stype := some "object" } : SchemaNode)]).set st.heap.length
                 { stype := some "array", items := some heap1.length },
               heap1.length) := by
        unfold resolveParentObject
        rw [if_neg (by decide), if_pos rfl]
      rw [hres]
      dsimp only
      rw [if_neg Bool.false_ne_true]
      have hpo : ((heap1 ++ [({ stype := some "object" } : SchemaNode)]).set st.heap.length
            { stype := some "array", items := some heap1.length })[heap1.length]? =
          some ({ stype := some "object" } : SchemaNode) := by
        rw [List.getElem?_set_ne (by omega), List.getElem?_concat_length]
      obtain ⟨heap3, hok, hpres⟩ :=
        addProperty_ok _ heap1.length ({ stype := some "object" } : SchemaNode)
          (p.name.getD "") H1.length p.required hpo rfl rfl
      rw [hok]
      dsimp only
      refine ⟨_, rfl, ?_, ?_⟩
      · rw [hpres gid (by omega), List.getElem?_set_ne (Nat.ne_of_gt hgidlt),
          List.getElem?_append_left (by omega),
          List.getElem?_append_left (by omega), hH1gid]
      · refine ⟨{ stype := some "array", items := some heap1.length }, ?_, rfl⟩
        rw [hpres st.heap.length (by omega)]
        exact List.getElem?_set_self (by simp [hheap1len]; omega)

theorem transformBodyParams_badIndent (p : BodyParam) (ps : List BodyParam)
    (h : p.indentation < 2 ∨ p.indentation % 2 ≠ 0) :
    ∃ e, transformBodyParams (p :: ps) = .error e := by
  refine ⟨"indentation is not a multiple of indentIncrement", ?_⟩
  unfold transformBodyParams
  rw [List.foldlM_cons, step_badIndent initState p h]
  rfl

/-- Claim C1: for every body_params array processed by
transformBodyParams, an entry whose indentation is less than 2 or not
a multiple of 2 causes a hard error (at the step, and for the whole
run); an entry whose depth (indentation / 2) has no schema recorded at
the immediately shallower depth causes a hard error, except for the
single tolerated one-level gap where the grandparent schema has type
array and no items yet, in which case the step succeeds and an
implicit array-of-array wrapper schema is synthesized (installed as
the grandparent's items) instead of erroring. -/
theorem transformBodyParams_spec :
    (∀ (st : BPState) (p : BodyParam),
        p.indentation < 2 ∨ p.indentation % 2 ≠ 0 →
        transformBodyParamsStep st p =
          .error "indentation is not a multiple of indentIncrement")
    ∧ (∀ (p : BodyParam) (ps : List BodyParam),
        p.indentation < 2 ∨ p.indentation % 2 ≠ 0 →
        ∃ e, transformBodyParams (p :: ps) = .error e)
    ∧ (∀ (st : BPState) (p : BodyParam),
        ¬ (p.indentation < 2 ∨ p.indentation % 2 ≠ 0) →
        st.schemaForDepth[(p.indentation / 2).toNat - 1]? = none →
        ¬ gapTolerated st (p.indentation / 2).toNat →
        transformBodyParamsStep st p = .error "param has no parent at indent")
    ∧ (∀ (st : BPState) (p : BodyParam) (gid : Nat) (gnode : SchemaNode),
        ¬ (p.indentation < 2 ∨ p.indentation % 2 ≠ 0) →
        2 < (p.indentation / 2).toNat →
        (p.indentation / 2).toNat - 1 = st.schemaForDepth.length →
        st.schemaForDepth[(p.indentation / 2).toNat - 2]? = some gid →
        st.heap[gid]? = some gnode →
        gnode.stype = some "array" → gnode.items = none →
        ∃ st', transformBodyParamsStep st p = .ok st' ∧
          st'.heap[gid]? = some { gnode with items := some st.heap.length } ∧
          ∃ wnode, st'.heap[st.heap.length]? = some wnode ∧
            wnode.stype = some "array") :=
  ⟨step_badIndent, transformBodyParams_badIndent, step_noParent, step_gapFix⟩

/-- The two hypothesis-bearing halves of the claim exercised on
concrete inputs: a bad indentation errors, and the tolerated gap on a
grandparent array without items succeeds and synthesizes the wrapper. -/
theorem transformBodyParams_spec_witness :
    (transformBodyParamsStep ⟨[{ stype := some "object" }], [0]⟩
        ⟨some "a", 3, false, none⟩ =
      .error "indentation is not a multiple of indentIncrement")
    ∧ ∃ st', transformBodyParamsStep
        ⟨[⟨some "object", none, none, none, none⟩,
          ⟨some "object", none, none, none, none⟩,
          ⟨some "array", none, none, none, none⟩], [0, 1, 2]⟩
        ⟨none, 8, false, some "string"⟩ = .ok st' ∧
        st'.heap[2]? = some ⟨some "array", some 3, none, none, none⟩ ∧
        ∃ wnode, st'.heap[3]? = some wnode ∧ wnode.stype = some "array" :=
  ⟨transformBodyParams_spec.1 _ _ (by decide),
   transformBodyParams_spec.2.2.2 _ _ 2 ⟨some "array", none, none, none, none⟩
     (by decide) (by decide) rfl rfl rfl rfl rfl⟩

end BodyParams
